import Mathlib

/- A shallow embedding of the valita validation library (src/index.ts):
   runtime values, the issue-tree error representation, schema nodes, the
   compiled validation functions (ObjectType/ArrayType/UnionType genFunc,
   createObjectMatchers, createUnionMatcher) and the parse entry point,
   together with theorems settling the specification claims. -/

set_option maxRecDepth 4000

namespace Valita

/-- JavaScript numbers as the library observes them: it performs no arithmetic,
only `typeof` checks and (strict or SameValueZero) equality comparisons, so we
carry NaN and negative zero explicitly next to ordinary integral values. -/
inductive JSNum where
  | nan
  | negZero
  | int (n : Int)
deriving DecidableEq

/-- Model of `type Key = string | number`: a path fragment (object key or array index). -/
inductive JSKey where
  | str (s : String)
  | num (n : Nat)
deriving DecidableEq

/-- Model of `BaseType`, extended with `symbol`: `toBaseType` applies `typeof`, and on the
internal `Nothing` sentinel symbol that yields "symbol" (cast to `BaseType`). -/
inductive BaseType where
  | object
  | array
  | null
  | undefined
  | string
  | number
  | bigint
  | boolean
  | symbol
deriving DecidableEq

/-- Model of `type Literal = string | number | bigint | boolean`. -/
inductive LitValue where
  | str (s : String)
  | num (n : JSNum)
  | big (n : Int)
  | bool (b : Bool)
deriving DecidableEq

/-- Runtime JavaScript values handled by the validator. `nothingV` is the internal
`Nothing` sentinel symbol (it can flow through the validation functions, e.g. for
absent optional keys). Objects are insertion-ordered string-keyed field lists. -/
inductive Value where
  | undef
  | null
  | bool (b : Bool)
  | num (n : JSNum)
  | big (n : Int)
  | str (s : String)
  | arr (items : List Value)
  | obj (fields : List (String × Value))
  | nothingV

/-- Model of `type CustomError = undefined | string | { message?, path? }`. -/
inductive CustomError where
  | undef
  | msg (s : String)
  | record (message : Option String) (path : Option (List JSKey))
deriving DecidableEq

/-- Model of `IssueTree = prepend | join | Issue`: as in the source, an `Issue` is itself a
leaf of the tree type, carrying an optional path fragment plus code-specific data. -/
inductive IssueTree where
  | prepend (key : JSKey) (tree : IssueTree)
  | join (left right : IssueTree)
  | invalidType (path : Option (List JSKey)) (expected : List BaseType)
  | invalidLiteral (path : Option (List JSKey)) (expected : List LitValue)
  | missingKey (path : Option (List JSKey)) (key : JSKey)
  | unrecognizedKey (path : Option (List JSKey)) (key : JSKey)
  | invalidUnion (path : Option (List JSKey)) (tree : IssueTree)
  | customError (path : Option (List JSKey)) (error : CustomError)

/-- The `path` field of an issue leaf (empty when absent or not a leaf). -/
def IssueTree.ownPath : IssueTree → List JSKey
  | .invalidType p _ => p.getD []
  | .invalidLiteral p _ => p.getD []
  | .missingKey p _ => p.getD []
  | .unrecognizedKey p _ => p.getD []
  | .invalidUnion p _ => p.getD []
  | .customError p _ => p.getD []
  | _ => []

/-- The `path` field of an issue leaf, `none` when absent. -/
def IssueTree.pathField : IssueTree → Option (List JSKey)
  | .invalidType p _ => p
  | .invalidLiteral p _ => p
  | .missingKey p _ => p
  | .unrecognizedKey p _ => p
  | .invalidUnion p _ => p
  | .customError p _ => p
  | _ => none

/-- The extra path of a `custom_error` whose error is an object with a `path`
(`typeof tree.error !== "string" && tree.error?.path` in `_collectIssues`). -/
def IssueTree.customPath : IssueTree → List JSKey
  | .customError _ (.record _ (some p)) => p
  | _ => []

/-- Overwrite the path of an issue leaf (the `{ ...tree, path: finalPath }` copy
that `_collectIssues` pushes). -/
def IssueTree.withPath (p : List JSKey) : IssueTree → IssueTree
  | .invalidType _ e => .invalidType (some p) e
  | .invalidLiteral _ e => .invalidLiteral (some p) e
  | .missingKey _ k => .missingKey (some p) k
  | .unrecognizedKey _ k => .unrecognizedKey (some p) k
  | .invalidUnion _ t => .invalidUnion (some p) t
  | .customError _ e => .customError (some p) e
  | t => t

/-- Model of `_collectIssues`: depth-first traversal with a path stack; `prepend` pushes its
key, `join` visits left then right, a leaf is emitted with the current stack
concatenated with its own path fragment(s). -/
def collectIssuesAux : IssueTree → List JSKey → List IssueTree
  | .join l r, p => collectIssuesAux l p ++ collectIssuesAux r p
  | .prepend k t, p => collectIssuesAux t (p ++ [k])
  | t, p => [t.withPath (p ++ t.ownPath ++ t.customPath)]

/-- Model of `collectIssues`: flatten an issue tree to the ordered issue list. -/
def collectIssues (t : IssueTree) : List IssueTree := collectIssuesAux t []

/-- Model of `Result<T>`: `true` (valid and unchanged), `ok(value)`, or an issue tree. -/
inductive Result where
  | unchanged
  | ok (v : Value)
  | issues (tree : IssueTree)

/-- Model of `FuncMode`: PASS / STRICT / STRIP. -/
inductive FuncMode where
  | pass
  | strict
  | strip
deriving DecidableEq

/-- The type of compiled validation functions `(v, mode) => Result`. -/
abbrev VFunc := Value → FuncMode → Result

/-- Model of `joinIssues(left, right)`: `right ? { code: "join", left, right } : left`. -/
def joinIssues (left : IssueTree) (right : Option IssueTree) : IssueTree :=
  match right with
  | some r => .join left r
  | none => left

/-- Strict equality (`===`) between JS numbers: NaN equals nothing, `-0 === 0`. -/
def JSNum.strictEq : JSNum → JSNum → Bool
  | .nan, _ => false
  | _, .nan => false
  | .negZero, .negZero => true
  | .negZero, .int n => n == 0
  | .int n, .negZero => n == 0
  | .int a, .int b => a == b

/-- SameValueZero equality (used by JS `Map`/`Set` keys): NaN equals NaN,
`-0` and `0` are the same key. -/
def JSNum.svzEq : JSNum → JSNum → Bool
  | .nan, .nan => true
  | .negZero, .negZero => true
  | .negZero, .int n => n == 0
  | .int n, .negZero => n == 0
  | .int a, .int b => a == b
  | _, _ => false

/-- Model of `v === value` between a runtime value and a literal value. -/
def strictEqValueLit : Value → LitValue → Bool
  | .str a, .str b => a == b
  | .num a, .num b => a.strictEq b
  | .big a, .big b => a == b
  | .bool a, .bool b => a == b
  | _, _ => false

/-- SameValueZero between a runtime value and a literal value (JS `Map.get`). -/
def svzEqValueLit : Value → LitValue → Bool
  | .str a, .str b => a == b
  | .num a, .num b => a.svzEq b
  | .big a, .big b => a == b
  | .bool a, .bool b => a == b
  | _, _ => false

/-- SameValueZero between two literal values (JS `Map` key identity). -/
def svzEqLit : LitValue → LitValue → Bool
  | .str a, .str b => a == b
  | .num a, .num b => a.svzEq b
  | .big a, .big b => a == b
  | .bool a, .bool b => a == b
  | _, _ => false

/-- Model of `toBaseType`: `typeof`-based base type of a runtime value. -/
def Value.toBaseType : Value → BaseType
  | .undef => .undefined
  | .null => .null
  | .bool _ => .boolean
  | .num _ => .number
  | .big _ => .bigint
  | .str _ => .string
  | .arr _ => .array
  | .obj _ => .object
  | .nothingV => .symbol

/-- Model of `toBaseType` of a literal value. -/
def LitValue.toBaseType : LitValue → BaseType
  | .str _ => .string
  | .num _ => .number
  | .big _ => .bigint
  | .bool _ => .boolean

/-- Model of `isObject`: a non-null non-array `typeof === "object"` value. -/
def isObject : Value → Bool
  | .obj _ => true
  | _ => false

/-- Model of `v === Nothing`: whether a value is the internal sentinel symbol. -/
def Value.isNothing : Value → Bool
  | .nothingV => true
  | _ => false

/-- Association-list lookup with an explicit key equality (JS `Map.get`). -/
def alGet (eq : α → α → Bool) : List (α × β) → α → Option β
  | [], _ => none
  | kv :: rest, key => if eq kv.1 key then some kv.2 else alGet eq rest key

/-- Association-list update with an explicit key equality (JS `Map.set`):
an existing entry keeps its position and original key, otherwise append. -/
def alSet (eq : α → α → Bool) : List (α × β) → α → β → List (α × β)
  | [], key, val => [(key, val)]
  | kv :: rest, key, val =>
    if eq kv.1 key then (kv.1, val) :: rest else kv :: alSet eq rest key val

/-- Model of `obj[key]` / `key in obj` on a runtime object's field list. -/
def lookupField (fields : List (String × Value)) (key : String) : Option Value :=
  alGet (fun a b => a == b) fields key

/-- JS property assignment `output[key] = value` on a field list. -/
def setField (fields : List (String × Value)) (key : String) (val : Value) :
    List (String × Value) :=
  alSet (fun a b => a == b) fields key val

/-- Model of `dedup` (first-occurrence order, over the root indices a bucket holds). -/
def dedupAux (seen : List Nat) : List Nat → List Nat
  | [] => []
  | x :: xs => if seen.contains x then dedupAux seen xs else x :: dedupAux (x :: seen) xs

/-- Model of `dedup`: remove duplicates keeping first occurrences. -/
def dedup (l : List Nat) : List Nat := dedupAux [] l

/-- Model of `difference(arr1, arr2)`: elements of `arr1` not in `arr2`. -/
def difference (arr1 arr2 : List Nat) : List Nat :=
  arr1.filter (fun x => !arr2.contains x)

/-- Schema nodes: the tagged variants of the source's `Type` subclasses. The
`transform` node carries the user function exactly as `TransformType` does. -/
inductive Schema where
  | nothing
  | unknown
  | string
  | number
  | bigint
  | boolean
  | undef
  | null
  | literal (value : LitValue)
  | object (shape : List (String × Schema)) (restType : Option Schema)
  | array (item : Schema)
  | union (options : List Schema)
  | optional (type : Schema)
  | transform (transformed : Schema) (transformFunc : Value → Result)

mutual

/-- Model of `toTerminals`: leaf classifications reachable from a node. `Optional`
contributes nothing, undefined and its inner terminals; `Union` the union of its
options' terminals; `Transform` delegates to the transformed node. -/
def Schema.toTerminals : Schema → List Schema
  | .union opts => toTerminalsList opts
  | .optional t => .nothing :: .undef :: t.toTerminals
  | .transform t _ => t.toTerminals
  | s => [s]

/-- Model of `toTerminals` over a list of options, in order. -/
def toTerminalsList : List Schema → List Schema
  | [] => []
  | s :: rest => s.toTerminals ++ toTerminalsList rest

end

/-- Whether a terminal is the `nothing` node (`t.name === "nothing"`). -/
def Schema.isNothing : Schema → Bool
  | .nothing => true
  | _ => false

/-- Model of `isOptional`: some terminal is `nothing`. -/
def Schema.isOptional (s : Schema) : Bool := s.toTerminals.any Schema.isNothing

/-- Model of `terminal.name` as a `BaseType`, for the dispatch maps. Only terminals other
than nothing / unknown / literal ever reach this in the dispatch analysis. -/
def Schema.baseName : Schema → BaseType
  | .string => .string
  | .number => .number
  | .bigint => .bigint
  | .boolean => .boolean
  | .undef => .undefined
  | .null => .null
  | .object _ _ => .object
  | .array _ => .array
  | _ => .symbol

/-- Classification of a terminal for dispatch-map construction. -/
inductive TermClass where
  | nothingT
  | unknownT
  | lit (value : LitValue)
  | base (b : BaseType)

/-- Classify a terminal node the way both matcher builders branch on
`terminal.name`. -/
def Schema.termClass : Schema → TermClass
  | .nothing => .nothingT
  | .unknown => .unknownT
  | .literal v => .lit v
  | s => .base s.baseName

/-- A declared-shape entry as precomputed by `ObjectType.genFunc`:
key, compiled field function, required flag. -/
abbrev FieldEntry := String × VFunc × Bool

/-- The unknown-keys loop of `ObjectType.genFunc` (runs when strict, strip or a
rest type is present): strict fails on the first unknown key, strip clones the
template and breaks, otherwise a present rest function validates the key. -/
def objLoop1 (knownKeys : String → Bool) (template : List (String × Value))
    (restF : Option VFunc) (mode : FuncMode) :
    List (String × Value) → Option (List (String × Value)) → Option IssueTree →
    Sum IssueTree (Option (List (String × Value)) × Option IssueTree)
  | [], out, acc => .inr (out, acc)
  | (key, val) :: fields, out, acc =>
    if knownKeys key then objLoop1 knownKeys template restF mode fields out acc
    else if mode = .strict then .inl (.unrecognizedKey none (.str key))
    else if mode = .strip then .inr (some template, acc)
    else
      match restF with
      | some rf =>
        match rf val mode with
        | .unchanged => objLoop1 knownKeys template restF mode fields out acc
        | .ok w =>
          objLoop1 knownKeys template restF mode fields
            (some (setField (out.getD template) key w)) acc
        | .issues t =>
          objLoop1 knownKeys template restF mode fields out
            (some (joinIssues (.prepend (.str key) t) acc))
      | none => objLoop1 knownKeys template restF mode fields out acc

/-- One declared key's update of `(output, issueTree)` in `ObjectType.genFunc`:
an `ok` result clones on first change and stores the new value, a failure joins a
`prepend`-wrapped tree, and in strip mode an unchanged value is copied into an
already-cloned output. -/
def objApplyKey (mode : FuncMode) (template : List (String × Value)) (key : String)
    (value : Value) (r : Result)
    (out : Option (List (String × Value))) (acc : Option IssueTree) :
    Option (List (String × Value)) × Option IssueTree :=
  match r with
  | .unchanged =>
    match mode, out with
    | .strip, some o => (some (setField o key value), acc)
    | _, _ => (out, acc)
  | .ok w => (some (setField (out.getD template) key w), acc)
  | .issues t => (out, some (joinIssues (.prepend (.str key) t) acc))

/-- The declared-keys loop of `ObjectType.genFunc`: a required key absent from the
input returns `missing_key` immediately; an absent optional key validates the
`Nothing` sentinel. -/
def objLoop2 (fields template : List (String × Value)) (mode : FuncMode) :
    List FieldEntry → Option (List (String × Value)) → Option IssueTree →
    Sum IssueTree (Option (List (String × Value)) × Option IssueTree)
  | [], out, acc => .inr (out, acc)
  | (key, func, required) :: entries, out, acc =>
    match lookupField fields key with
    | none =>
      if required then .inl (.missingKey none (.str key))
      else
        let st := objApplyKey mode template key .nothingV (func .nothingV mode) out acc
        objLoop2 fields template mode entries st.1 st.2
    | some v =>
      let st := objApplyKey mode template key v (func v mode) out acc
      objLoop2 fields template mode entries st.1 st.2

/-- Model of `ObjectType.genFunc`: reject non-objects; handle unknown keys per mode / rest;
validate declared keys; return the unchanged sentinel when the output is still the
input, else a clone, else the joined issues. -/
def objectGenFunc (entries : List FieldEntry) (restF : Option VFunc) : VFunc :=
  fun v mode =>
    match v with
    | .obj fields =>
      let knownKeys := fun k => entries.any (fun e => e.1 == k)
      let shapeTemplate : List (String × Value) := entries.map (fun e => (e.1, Value.undef))
      let template := if mode = .pass ∨ restF.isSome then fields else shapeTemplate
      let st0 :=
        if mode = .strict ∨ mode = .strip ∨ restF.isSome then
          objLoop1 knownKeys template restF mode fields none none
        else .inr (none, none)
      match st0 with
      | .inl issue => .issues issue
      | .inr (out, acc) =>
        match objLoop2 fields template mode entries out acc with
        | .inl issue => .issues issue
        | .inr (out2, acc2) =>
          match acc2 with
          | some t => .issues t
          | none =>
            match out2 with
            | none => .unchanged
            | some o => .ok (.obj o)
    | _ => .issues (.invalidType none [.object])

/-- The element loop of `ArrayType.genFunc`, carrying the original array for the
first-change `arr.slice()` clone. -/
def arrLoop (f : VFunc) (mode : FuncMode) (arr : List Value) :
    List Value → Nat → Option (List Value) → Option IssueTree →
    Option (List Value) × Option IssueTree
  | [], _, out, acc => (out, acc)
  | v :: rest, i, out, acc =>
    match f v mode with
    | .unchanged => arrLoop f mode arr rest (i + 1) out acc
    | .ok w => arrLoop f mode arr rest (i + 1) (some ((out.getD arr).set i w)) acc
    | .issues t =>
      arrLoop f mode arr rest (i + 1) out (some (joinIssues (.prepend (.num i) t) acc))

/-- Model of `ArrayType.genFunc`. -/
def arrayGenFunc (f : VFunc) : VFunc :=
  fun v mode =>
    match v with
    | .arr items =>
      match arrLoop f mode items items 0 none none with
      | (_, some t) => .issues t
      | (none, none) => .unchanged
      | (some o, none) => .ok (.arr o)
    | _ => .issues (.invalidType none [.array])

/-- The dispatch maps a union matcher accumulates: literal buckets, base-type
buckets, the insertion-ordered set of all base types, catch-all and nothing
alternatives, each bucket holding root indices in declaration order. -/
structure UMData where
  literals : List (LitValue × List Nat)
  types : List (BaseType × List Nat)
  allTypes : List BaseType
  unknowns : List Nat
  nothings : List Nat

/-- JS `Set.add` on base types: keep insertion order, ignore duplicates. -/
def addUniqueBT (l : List BaseType) (b : BaseType) : List BaseType :=
  if l.contains b then l else l ++ [b]

/-- Push a root index onto a map bucket (`(map.get(k) || []).push(i)` then set). -/
def alPush (eq : α → α → Bool) (m : List (α × List Nat)) (key : α) (i : Nat) :
    List (α × List Nat) :=
  match alGet eq m key with
  | some roots => alSet eq m key (roots ++ [i])
  | none => m ++ [(key, [i])]

/-- The classification loop shared (textually duplicated in the source) by
`createObjectMatchers`' discriminant analysis and `createUnionMatcher`. -/
def umCollect : List (Nat × Schema) → UMData → UMData
  | [], d => d
  | (i, term) :: rest, d =>
    umCollect rest
      (match term.termClass with
       | .nothingT => UMData.mk d.literals d.types d.allTypes d.unknowns (d.nothings ++ [i])
       | .unknownT => UMData.mk d.literals d.types d.allTypes (d.unknowns ++ [i]) d.nothings
       | .lit v =>
         UMData.mk (alPush svzEqLit d.literals v i) d.types
           (addUniqueBT d.allTypes v.toBaseType) d.unknowns d.nothings
       | .base b =>
         UMData.mk d.literals (alPush (fun a c => a == c) d.types b i)
           (addUniqueBT d.allTypes b) d.unknowns d.nothings)

/-- Move each literal bucket whose base type owns a type bucket into that type
bucket, deleting the literal entry (the `literals.forEach` merge). -/
def mergeLiterals : List (LitValue × List Nat) → List (BaseType × List Nat) →
    List (LitValue × List Nat) × List (BaseType × List Nat)
  | [], types => ([], types)
  | (v, vxs) :: rest, types =>
    match alGet (fun a c => a == c) types v.toBaseType with
    | some opts =>
      mergeLiterals rest (alSet (fun a c => a == c) types v.toBaseType (opts ++ vxs))
    | none =>
      let p := mergeLiterals rest types
      ((v, vxs) :: p.1, p.2)

/-- The normalization both matcher builders perform: dedup unknowns and nothings,
merge literal buckets into matching type buckets, then subtract the catch-alls
from every bucket after dedup. -/
def umNormalize (d : UMData) : UMData :=
  let unknowns := dedup d.unknowns
  let nothings := dedup d.nothings
  let p := mergeLiterals d.literals d.types
  let types := p.2.map (fun kv => (kv.1, difference (dedup kv.2) unknowns))
  let literals := p.1.map (fun kv => (kv.1, difference (dedup kv.2) unknowns))
  UMData.mk literals types d.allTypes unknowns nothings

/-- Placeholder for an out-of-range index into the compiled option functions;
never reached, since every bucket index is a position in the options list. -/
def defaultFunc : VFunc := fun _ _ => .issues (.invalidType none [])

/-- The trial loop of `createUnionMatcher`'s returned closure over one bucket:
the first success returns immediately, failures are joined (newest leftmost) and
counted. -/
def tryFuncs (funcs : List VFunc) (rootValue : Value) (mode : FuncMode) :
    List Nat → Option IssueTree → Nat →
    Sum Result (Option IssueTree × Nat)
  | [], acc, count => .inr (acc, count)
  | i :: idxs, acc, count =>
    match (funcs.getD i defaultFunc) rootValue mode with
    | .issues t => tryFuncs funcs rootValue mode idxs (some (joinIssues t acc)) (count + 1)
    | r => .inl r

/-- The tail of the matcher closure: a joined tree from more than one tried
alternative is wrapped as `invalid_union`, a single tried alternative's tree is
surfaced unwrapped, and no tried alternative at all yields `invalid_literal`. -/
def umFinalize (d : UMData) (path : Option (List JSKey)) :
    Option IssueTree × Nat → Result
  | (some t, count) =>
    if count > 1 then .issues (.invalidUnion none t) else .issues t
  | (none, _) => .issues (.invalidLiteral path (d.literals.map (fun kv => kv.1)))

/-- Model of `literals.get(value)`: a runtime value looked up against the
literal keys of the dispatch map (SameValueZero key identity). -/
def findLitBucket : List (LitValue × List Nat) → Value → Option (List Nat)
  | [], _ => none
  | kv :: rest, v => if svzEqValueLit v kv.1 then some kv.2 else findLitBucket rest v

/-- The closure returned by `createUnionMatcher`: dispatch on the nothing sentinel
or on the value's literal / base-type bucket, try the bucket then the catch-alls,
and finalize. -/
def umRun (funcs : List VFunc) (d : UMData) (path : Option (List JSKey)) :
    Value → Value → FuncMode → Result :=
  fun rootValue value mode =>
    if value.isNothing then
      match tryFuncs funcs rootValue mode d.nothings none 0 with
      | .inl r => r
      | .inr st => umFinalize d path st
    else
      let ty := value.toBaseType
      if d.unknowns.isEmpty ∧ ¬ d.allTypes.contains ty then
        .issues (.invalidType path d.allTypes)
      else
        let opts :=
          match findLitBucket d.literals value with
          | some roots => some roots
          | none => alGet (fun a c => a == c) d.types ty
        let st1 :=
          match opts with
          | some idxs => tryFuncs funcs rootValue mode idxs none 0
          | none => .inr (none, 0)
        match st1 with
        | .inl r => r
        | .inr (acc, count) =>
          match tryFuncs funcs rootValue mode d.unknowns acc count with
          | .inl r => r
          | .inr st => umFinalize d path st

/-- Model of `createUnionMatcher` over (root index, terminal) pairs. -/
def createUnionMatcher (funcs : List VFunc) (t : List (Nat × Schema))
    (path : Option (List JSKey)) : Value → Value → FuncMode → Result :=
  umRun funcs (umNormalize (umCollect t (UMData.mk [] [] [] [] []))) path

/-- The (root index, terminal) pairs of the terminals at a common key, per shape
position (`toTerminals(shape[key])` inside the discriminant filter), the index
being the position used by the uniqueness checks. -/
def shapeKeyTerms (shapes : List (List (String × Schema))) (key : String) :
    List (Nat × Schema) :=
  (shapes.enum.map (fun p =>
    match alGet (fun a c => a == c) p.2 key with
    | some s => s.toTerminals.map (fun t2 => (p.1, t2))
    | none => [])).flatten

/-- All buckets of a dispatch map hold at most one alternative. -/
def bucketsOk (m : List (α × List Nat)) : Bool := m.all (fun kv => kv.2.length ≤ 1)

/-- The discriminant-key filter of `createObjectMatchers`: at most one alternative
may tolerate absence, at most one may accept unknown (and then no other bucket may
exist), and no two alternatives may share a base type or literal at the key. -/
def isValidDiscriminant (shapes : List (List (String × Schema))) (key : String) : Bool :=
  let d := umNormalize (umCollect (shapeKeyTerms shapes key) (UMData.mk [] [] [] [] []))
  if d.nothings.length > 1 then false
  else if d.unknowns.length > 1 then false
  else if d.unknowns.length = 1 then d.literals.isEmpty && d.types.isEmpty
  else bucketsOk d.literals && bucketsOk d.types

/-- The key-count accumulation of `findCommonKeys`. -/
def bumpKey (m : List (String × Nat)) (k : String) : List (String × Nat) :=
  match alGet (fun a c => a == c) m k with
  | some c => alSet (fun a b => a == b) m k (c + 1)
  | none => m ++ [(k, 1)]

/-- Model of `findCommonKeys`: keys declared by every object shape, in first-appearance
order. -/
def findCommonKeys (rs : List (List (String × Schema))) : List String :=
  let m := rs.foldl (fun m r => r.foldl (fun m kv => bumpKey m kv.1) m) []
  (m.filter (fun kv => kv.2 == rs.length)).map (fun kv => kv.1)

/-- One object-discriminant dispatcher: the key, the root index tolerating the
key's absence (if any), and the matcher over the key's value. -/
structure ObjMatcher where
  key : String
  nothing : Option Nat
  matcher : Value → Value → FuncMode → Result

/-- Model of `createObjectMatchers`: select the object terminals, compute common keys,
filter valid discriminants and build a matcher for each from the flattened
terminals at the key. -/
def createObjectMatchers (funcs : List VFunc) (t : List (Nat × Schema)) :
    List ObjMatcher :=
  let objects : List (Nat × List (String × Schema)) :=
    t.filterMap (fun p =>
      match p.2 with
      | .object shape _ => some (p.1, shape)
      | _ => none)
  let shapes := objects.map (fun o => o.2)
  let common := findCommonKeys shapes
  let discriminants := common.filter (isValidDiscriminant shapes)
  discriminants.map (fun key =>
    let flattened : List (Nat × Schema) :=
      (objects.map (fun o =>
        match alGet (fun a c => a == c) o.2 key with
        | some s => s.toTerminals.map (fun t2 => (o.1, t2))
        | none => [])).flatten
    let nothingRoot := (flattened.find? (fun p => p.2.isNothing)).map (fun p => p.1)
    ObjMatcher.mk key nothingRoot (createUnionMatcher funcs flattened (some [.str key])))

/-- The (root index, terminal) pairs of a union's options (`flatten` applied to
the options paired with themselves). -/
def flattenWithIdx (opts : List Schema) : List (Nat × Schema) :=
  (opts.enum.map (fun p => p.2.toTerminals.map (fun t2 => (p.1, t2)))).flatten

/-- Model of `UnionType.genFunc`: when an object discriminant exists and the value is an
object, dispatch on the first discriminant key; a wholly absent key goes to the
absence-tolerating alternative's function applied to the `Nothing` sentinel, or
fails `missing_key`; otherwise the generic matcher runs on the value itself. -/
def unionGenFunc (opts : List Schema) (funcs : List VFunc) : VFunc :=
  let flattened := flattenWithIdx opts
  let objects := createObjectMatchers funcs flattened
  let base := createUnionMatcher funcs flattened none
  fun v mode =>
    match objects, v with
    | item :: _, .obj fields =>
      (match lookupField fields item.key with
       | some value => item.matcher v value mode
       | none =>
         match item.nothing with
         | some i => (funcs.getD i defaultFunc) .nothingV mode
         | none => .issues (.missingKey none (.str item.key)))
    | _, _ => base v v mode

mutual

/-- The compiled validation function of a schema node (`Type.func` /
`genFunc` of each node class). -/
def Schema.run : Schema → VFunc
  | .nothing => fun v _ =>
    match v with
    | .nothingV => .unchanged
    | _ => .issues (.invalidType none [])
  | .unknown => fun _ _ => .unchanged
  | .string => fun v _ =>
    match v with
    | .str _ => .unchanged
    | _ => .issues (.invalidType none [.string])
  | .number => fun v _ =>
    match v with
    | .num _ => .unchanged
    | _ => .issues (.invalidType none [.number])
  | .bigint => fun v _ =>
    match v with
    | .big _ => .unchanged
    | _ => .issues (.invalidType none [.bigint])
  | .boolean => fun v _ =>
    match v with
    | .bool _ => .unchanged
    | _ => .issues (.invalidType none [.boolean])
  | .undef => fun v _ =>
    match v with
    | .undef => .unchanged
    | _ => .issues (.invalidType none [.undefined])
  | .null => fun v _ =>
    match v with
    | .null => .unchanged
    | _ => .issues (.invalidType none [.null])
  | .literal value => fun v _ =>
    if strictEqValueLit v value then .unchanged else .issues (.invalidLiteral none [value])
  | .object shape restType => objectGenFunc (runFields shape) (runRest restType)
  | .array item => arrayGenFunc item.run
  | .union opts => unionGenFunc opts (runList opts)
  | .optional t => fun v mode =>
    match v with
    | .nothingV => .unchanged
    | .undef => .unchanged
    | _ => t.run v mode
  | .transform t f => fun v mode =>
    match t.run v mode with
    | .unchanged => f v
    | .ok w => f w
    | .issues tr => .issues tr

/-- Compile the declared shape entries (key, func, required). -/
def runFields : List (String × Schema) → List FieldEntry
  | [] => []
  | (k, s) :: rest => (k, s.run, !s.isOptional) :: runFields rest

/-- Compile the optional rest schema. -/
def runRest : Option Schema → Option VFunc
  | none => none
  | some s => some s.run

/-- Compile each union option. -/
def runList : List Schema → List VFunc
  | [] => []
  | s :: rest => s.run :: runList rest

end

/-- Model of `Type.parse`: unchanged returns the input value itself, `ok` the new value,
an issue tree is raised (as the thrown `ValitaError`'s tree). -/
def Schema.parse (s : Schema) (v : Value) (mode : FuncMode) : Except IssueTree Value :=
  match s.run v mode with
  | .unchanged => .ok v
  | .ok w => .ok w
  | .issues t => .error t

mutual

/-- A schema contains no `transform` node (no `assert` / `apply` / `chain`). -/
def Schema.transformFree : Schema → Bool
  | .object shape restType => fieldsTransformFree shape && restTransformFree restType
  | .array item => item.transformFree
  | .union opts => listTransformFree opts
  | .optional t => t.transformFree
  | .transform _ _ => false
  | _ => true

/-- Model of `transformFree` over the declared shape entries. -/
def fieldsTransformFree : List (String × Schema) → Bool
  | [] => true
  | (_, s) :: rest => s.transformFree && fieldsTransformFree rest

/-- Model of `transformFree` over an optional rest schema. -/
def restTransformFree : Option Schema → Bool
  | none => true
  | some s => s.transformFree

/-- Model of `transformFree` over union options. -/
def listTransformFree : List Schema → Bool
  | [] => true
  | s :: rest => s.transformFree && listTransformFree rest

end

/-- JSON.stringify escaping of one character (the escapes the library's messages
can exercise; further control-character escapes never arise in our values). -/
def escapeJsonChar (c : Char) : String :=
  if c = '"' then "\\\""
  else if c = '\\' then "\\\\"
  else if c = '\n' then "\\n"
  else if c = '\t' then "\\t"
  else if c = '\r' then "\\r"
  else String.singleton c

/-- JSON.stringify of a string. -/
def jsonQuote (s : String) : String :=
  "\"" ++ String.join (s.toList.map escapeJsonChar) ++ "\""

/-- JSON.stringify of a literal value (`JSON.stringify(NaN)` is "null",
`JSON.stringify(-0)` is "0"). -/
def jsonStringifyLit : LitValue → String
  | .str s => jsonQuote s
  | .num .nan => "null"
  | .num .negZero => "0"
  | .num (.int n) => toString n
  | .big n => toString n
  | .bool true => "true"
  | .bool false => "false"

/-- Model of `formatLiteral`: bigints get an `n` suffix, everything else JSON.stringify. -/
def formatLiteral : LitValue → String
  | .big n => toString n ++ "n"
  | v => jsonStringifyLit v

/-- Model of `formatLiteral` applied to an issue's key (`Key = string | number`). -/
def formatKey : JSKey → String
  | .str s => jsonQuote s
  | .num n => toString n

/-- Model of `orList`: "nothing", a single entry, or "a, b or c". -/
def orList : List String → String
  | [] => "nothing"
  | l =>
    if l.length < 2 then l.getLastD ""
    else String.intercalate ", " l.dropLast ++ " or " ++ l.getLastD ""

/-- The `BaseType` strings used in messages. -/
def baseTypeName : BaseType → String
  | .object => "object"
  | .array => "array"
  | .null => "null"
  | .undefined => "undefined"
  | .string => "string"
  | .number => "number"
  | .bigint => "bigint"
  | .boolean => "boolean"
  | .symbol => "symbol"

/-- The `code` string of an issue. -/
def issueCode : IssueTree → String
  | .prepend _ _ => "prepend"
  | .join _ _ => "join"
  | .invalidType _ _ => "invalid_type"
  | .invalidLiteral _ _ => "invalid_literal"
  | .missingKey _ _ => "missing_key"
  | .unrecognizedKey _ _ => "unrecognized_key"
  | .invalidUnion _ _ => "invalid_union"
  | .customError _ _ => "custom_error"

/-- The per-code description inside a `ValitaError` message, including the
source's literal `error.message === "string"` comparison for object errors. -/
def issueMessage : IssueTree → String
  | .invalidType _ expected => "expected " ++ orList (expected.map baseTypeName)
  | .invalidLiteral _ expected => "expected " ++ orList (expected.map formatLiteral)
  | .missingKey _ k => "missing key " ++ formatKey k
  | .unrecognizedKey _ k => "unrecognized key " ++ formatKey k
  | .customError _ (.msg s) => s
  | .customError _ (.record (some m) _) => if m == "string" then m else "validation failed"
  | _ => "validation failed"

/-- A path key as it appears dot-joined in the message. -/
def keyToString : JSKey → String
  | .str s => s
  | .num n => toString n

/-- The full single-line message derived from one collected issue. -/
def issueFullMessage (i : IssueTree) : String :=
  issueCode i ++ " at ." ++
    String.intercalate "." ((i.pathField.getD []).map keyToString) ++
    " (" ++ issueMessage i ++ ")"

/-- Model of `ValitaError.message`: derived from the first collected issue of the tree. -/
def errorMessage (t : IssueTree) : String :=
  match collectIssues t with
  | [] => ""
  | i :: _ => issueFullMessage i

/-- The value `ObjectType.genFunc` feeds a declared key's function: the present
value, or the `Nothing` sentinel when the key is wholly absent. -/
def objValueFor (fields : List (String × Value)) (k : String) : Value :=
  (lookupField fields k).getD .nothingV

/-- The declared keys whose field functions fail on an input, with their issue
trees, in declaration order. -/
def entryFailures (fields : List (String × Value)) (mode : FuncMode)
    (entries : List FieldEntry) : List (JSKey × IssueTree) :=
  entries.filterMap (fun e =>
    match e.2.1 (objValueFor fields e.1) mode with
    | .issues t => some (.str e.1, t)
    | _ => none)

/-- Fold the per-key failures into the accumulated issue tree exactly as the
declared-keys loop does (`joinIssues(prependPath(key, r), issueTree)`). -/
def accJoin (acc : Option IssueTree) (l : List (JSKey × IssueTree)) : Option IssueTree :=
  l.foldl (fun a kt => some (joinIssues (.prepend kt.1 kt.2) a)) acc

/-- Model of `collectIssuesAux` lifted to an optional tree. -/
def optCollect (t : Option IssueTree) (p : List JSKey) : List IssueTree :=
  match t with
  | none => []
  | some t => collectIssuesAux t p

end Valita

namespace Valita

theorem lookupField_setField_self (o : List (String × Value)) (k : String) (v : Value) :
    lookupField (setField o k v) k = some v := by
  induction o with
  | nil => simp [setField, alSet, lookupField, alGet]
  | cons kv rest ih =>
    by_cases h : kv.1 == k
    · simp [setField, alSet, h, lookupField, alGet]
    · simp only [setField, alSet, h, if_false, Bool.false_eq_true] at ih ⊢
      simp [lookupField, alGet, h]
      exact ih

theorem lookupField_setField_ne (o : List (String × Value)) (k k' : String) (v : Value)
    (h : k ≠ k') : lookupField (setField o k v) k' = lookupField o k' := by
  induction o with
  | nil => simp [setField, alSet, lookupField, alGet, h]
  | cons kv rest ih =>
    by_cases hk : kv.1 == k
    · have hkk : kv.1 = k := by simpa using hk
      simp [setField, alSet, hk, lookupField, alGet, hkk, h]
    · simp only [setField, alSet, hk, if_false, Bool.false_eq_true] at ih ⊢
      by_cases hk' : kv.1 == k'
      · simp [lookupField, alGet, hk']
      · simp [lookupField, alGet, hk'] at ih ⊢
        exact ih

theorem runFields_append (l₁ l₂ : List (String × Schema)) :
    runFields (l₁ ++ l₂) = runFields l₁ ++ runFields l₂ := by
  induction l₁ with
  | nil => simp [runFields]
  | cons kv rest ih => simp [runFields, ih]

theorem runFields_mem_inv (shape : List (String × Schema)) (e : FieldEntry)
    (he : e ∈ runFields shape) :
    ∃ ks ∈ shape, e = (ks.1, ks.2.run, !ks.2.isOptional) := by
  induction shape with
  | nil => simp [runFields] at he
  | cons kv rest ih =>
    simp only [runFields] at he
    rcases List.mem_cons.mp he with h | h
    · exact ⟨kv, List.mem_cons_self _ _, h⟩
    · rcases ih h with ⟨ks, hks, hks2⟩
      exact ⟨ks, List.mem_cons_of_mem _ hks, hks2⟩

theorem mem_runFields (shape : List (String × Schema)) (ks : String × Schema)
    (h : ks ∈ shape) : (ks.1, ks.2.run, !ks.2.isOptional) ∈ runFields shape := by
  induction shape with
  | nil => simp at h
  | cons kv rest ih =>
    rcases List.mem_cons.mp h with h | h
    · subst h; simp [runFields]
    · simp only [runFields]
      exact List.mem_cons_of_mem _ (ih h)

theorem objApplyKey_acc (mode : FuncMode) (template : List (String × Value)) (key : String)
    (value : Value) (r : Result) (out : Option (List (String × Value))) (acc : Option IssueTree) :
    (objApplyKey mode template key value r out acc).2 =
      match r with
      | .issues t => some (joinIssues (.prepend (.str key) t) acc)
      | _ => acc := by
  cases r <;> cases mode <;> cases out <;> rfl

theorem objApplyKey_some (mode : FuncMode) (template : List (String × Value)) (key : String)
    (value : Value) (r : Result) (o : List (String × Value)) (acc : Option IssueTree) :
    ∃ o', (objApplyKey mode template key value r (some o) acc).1 = some o' := by
  cases r <;> cases mode <;> simp [objApplyKey]

theorem objApplyKey_lookup_ne (mode : FuncMode) (template : List (String × Value)) (key : String)
    (value : Value) (r : Result) (o : List (String × Value)) (acc : Option IssueTree)
    (k : String) (h : key ≠ k) (o' : List (String × Value))
    (ho : (objApplyKey mode template key value r (some o) acc).1 = some o') :
    lookupField o' k = lookupField o k := by
  cases r with
  | unchanged =>
    cases mode <;> simp [objApplyKey] at ho <;> try (subst ho; rfl)
    · rw [← ho]; exact lookupField_setField_ne _ _ _ _ h
  | ok w =>
    simp [objApplyKey] at ho
    rw [← ho]; exact lookupField_setField_ne _ _ _ _ h
  | issues t =>
    simp [objApplyKey] at ho
    subst ho; rfl

theorem objLoop2_append (fields template : List (String × Value)) (mode : FuncMode)
    (l₁ l₂ : List FieldEntry) :
    ∀ out acc, objLoop2 fields template mode (l₁ ++ l₂) out acc =
      match objLoop2 fields template mode l₁ out acc with
      | .inl e => .inl e
      | .inr st => objLoop2 fields template mode l₂ st.1 st.2 := by
  induction l₁ with
  | nil => intro out acc; simp [objLoop2]
  | cons e rest ih =>
    intro out acc
    obtain ⟨key, func, required⟩ := e
    simp only [List.cons_append, objLoop2]
    cases hl : lookupField fields key with
    | none =>
      by_cases hr : required
      · simp [hr]
      · simp [hr, ih]
    | some v => simp [ih]

theorem objLoop2_some (fields template : List (String × Value)) (mode : FuncMode)
    (entries : List FieldEntry) :
    ∀ o acc st, objLoop2 fields template mode entries (some o) acc = .inr st →
      ∃ o', st.1 = some o' := by
  induction entries with
  | nil => intro o acc st h; simp [objLoop2] at h; exact ⟨o, by rw [← h]⟩
  | cons e rest ih =>
    intro o acc st h
    obtain ⟨key, func, required⟩ := e
    simp only [objLoop2] at h
    cases hl : lookupField fields key with
    | none =>
      simp only [hl] at h
      by_cases hr : required
      · simp [hr] at h
      · simp only [hr, if_false] at h
        obtain ⟨o1, ho1⟩ := objApplyKey_some mode template key .nothingV (func .nothingV mode) o acc
        rw [ho1] at h
        exact ih o1 _ st h
    | some v =>
      simp only [hl] at h
      obtain ⟨o1, ho1⟩ := objApplyKey_some mode template key v (func v mode) o acc
      rw [ho1] at h
      exact ih o1 _ st h

end Valita

namespace Valita

theorem accJoin_cons (acc : Option IssueTree) (kt : JSKey × IssueTree) (l : List (JSKey × IssueTree)) :
    accJoin acc (kt :: l) = accJoin (some (joinIssues (.prepend kt.1 kt.2) acc)) l := rfl

theorem objLoop2_preserve (fields template : List (String × Value)) (mode : FuncMode) (k : String) :
    ∀ (entries : List FieldEntry), (∀ e ∈ entries, e.1 ≠ k) →
    ∀ o acc st, objLoop2 fields template mode entries (some o) acc = .inr st →
    ∀ o', st.1 = some o' → lookupField o' k = lookupField o k := by
  intro entries
  induction entries with
  | nil =>
    intro _ o acc st h o' ho'
    simp only [objLoop2, Sum.inr.injEq] at h
    rw [← h] at ho'
    simp only at ho'
    cases ho'
    rfl
  | cons e rest ih =>
    intro hk o acc st h o' ho'
    obtain ⟨key, func, required⟩ := e
    have hkey : key ≠ k := hk _ (List.mem_cons_self _ _)
    have hkrest : ∀ e ∈ rest, e.1 ≠ k := fun e he => hk e (List.mem_cons_of_mem _ he)
    simp only [objLoop2] at h
    cases hl : lookupField fields key with
    | none =>
      simp only [hl] at h
      by_cases hr : required
      · simp [hr] at h
      · simp only [hr, if_false] at h
        obtain ⟨o1, ho1⟩ := objApplyKey_some mode template key .nothingV (func .nothingV mode) o acc
        rw [ho1] at h
        have := ih hkrest o1 _ st h o' ho'
        rw [this]
        exact objApplyKey_lookup_ne mode template key .nothingV (func .nothingV mode) o acc k hkey o1 ho1
    | some v =>
      simp only [hl] at h
      obtain ⟨o1, ho1⟩ := objApplyKey_some mode template key v (func v mode) o acc
      rw [ho1] at h
      have := ih hkrest o1 _ st h o' ho'
      rw [this]
      exact objApplyKey_lookup_ne mode template key v (func v mode) o acc k hkey o1 ho1

theorem objApplyKey_accJoin (fields template : List (String × Value)) (mode : FuncMode)
    (key : String) (func : VFunc) (required : Bool) (rest : List FieldEntry)
    (value : Value) (hv : objValueFor fields key = value)
    (out : Option (List (String × Value))) (acc : Option IssueTree) :
    accJoin ((objApplyKey mode template key value (func value mode) out acc).2)
        (entryFailures fields mode rest) =
      accJoin acc (entryFailures fields mode ((key, func, required) :: rest)) := by
  have hacc := objApplyKey_acc mode template key value (func value mode) out acc
  cases hr2 : func value mode with
  | unchanged =>
    rw [hr2] at hacc
    simp only at hacc
    rw [hacc]
    congr 1
    simp [entryFailures, List.filterMap_cons, hv, hr2]
  | ok w =>
    rw [hr2] at hacc
    simp only at hacc
    rw [hacc]
    congr 1
    simp [entryFailures, List.filterMap_cons, hv, hr2]
  | issues t =>
    rw [hr2] at hacc
    simp only at hacc
    rw [hacc]
    have hef : entryFailures fields mode ((key, func, required) :: rest) =
        (JSKey.str key, t) :: entryFailures fields mode rest := by
      simp [entryFailures, List.filterMap_cons, hv, hr2]
    rw [hef, accJoin_cons]

theorem objLoop2_char (fields template : List (String × Value)) (mode : FuncMode) :
    ∀ (entries : List FieldEntry),
    (∀ e ∈ entries, e.2.2 = true → (lookupField fields e.1).isSome = true) →
    ∀ out acc, ∃ out', objLoop2 fields template mode entries out acc =
      .inr (out', accJoin acc (entryFailures fields mode entries)) := by
  intro entries
  induction entries with
  | nil => intro _ out acc; exact ⟨out, by simp [objLoop2, accJoin, entryFailures]⟩
  | cons e rest ih =>
    intro hreq out acc
    obtain ⟨key, func, required⟩ := e
    have hreqrest : ∀ e ∈ rest, e.2.2 = true → (lookupField fields e.1).isSome = true :=
      fun e he => hreq e (List.mem_cons_of_mem _ he)
    simp only [objLoop2]
    cases hl : lookupField fields key with
    | none =>
      have hv : objValueFor fields key = .nothingV := by simp [objValueFor, hl]
      have hrf : required = false := by
        by_contra hr
        rw [Bool.not_eq_false] at hr
        have := hreq _ (List.mem_cons_self _ _) hr
        rw [hl] at this
        simp at this
      subst hrf
      obtain ⟨out', hout⟩ := ih hreqrest
        (objApplyKey mode template key .nothingV (func .nothingV mode) out acc).1
        (objApplyKey mode template key .nothingV (func .nothingV mode) out acc).2
      refine ⟨out', ?_⟩
      rw [← objApplyKey_accJoin fields template mode key func false rest .nothingV hv out acc]
      simpa using hout
    | some v =>
      have hv : objValueFor fields key = v := by simp [objValueFor, hl]
      obtain ⟨out', hout⟩ := ih hreqrest
        (objApplyKey mode template key v (func v mode) out acc).1
        (objApplyKey mode template key v (func v mode) out acc).2
      refine ⟨out', ?_⟩
      rw [← objApplyKey_accJoin fields template mode key func required rest v hv out acc]
      simpa using hout

theorem optCollect_accJoin : ∀ (l : List (JSKey × IssueTree)) (acc : Option IssueTree) (p : List JSKey),
    optCollect (accJoin acc l) p =
      (l.reverse.map (fun kt => collectIssuesAux kt.2 (p ++ [kt.1]))).flatten ++ optCollect acc p := by
  intro l
  induction l with
  | nil => intro acc p; simp [accJoin, optCollect]
  | cons kt rest ih =>
    intro acc p
    rw [accJoin_cons, ih]
    cases acc with
    | none => simp [optCollect, joinIssues, collectIssuesAux]
    | some a => simp [optCollect, joinIssues, collectIssuesAux]

theorem collectIssuesAux_ne_nil : ∀ (t : IssueTree) (p : List JSKey), collectIssuesAux t p ≠ [] := by
  intro t
  induction t with
  | prepend k t ih => intro p; simp only [collectIssuesAux]; exact ih (p ++ [k])
  | join l r ihl ihr => intro p; simp only [collectIssuesAux]; simp [ihl p]
  | invalidType p e => intro q; simp [collectIssuesAux]
  | invalidLiteral p e => intro q; simp [collectIssuesAux]
  | missingKey p k => intro q; simp [collectIssuesAux]
  | unrecognizedKey p k => intro q; simp [collectIssuesAux]
  | invalidUnion p t ih => intro q; simp [collectIssuesAux]
  | customError p e => intro q; simp [collectIssuesAux]

theorem collectIssuesAux_path : ∀ (t : IssueTree) (p : List JSKey),
    ∀ i ∈ collectIssuesAux t p, ∃ s, i.pathField = some (p ++ s) := by
  intro t
  induction t with
  | prepend k t ih =>
    intro p i hi
    simp only [collectIssuesAux] at hi
    obtain ⟨s, hs⟩ := ih (p ++ [k]) i hi
    exact ⟨[k] ++ s, by rw [hs]; simp⟩
  | join l r ihl ihr =>
    intro p i hi
    simp only [collectIssuesAux] at hi
    rcases List.mem_append.mp hi with h | h
    · exact ihl p i h
    · exact ihr p i h
  | invalidType q e =>
    intro p i hi
    simp only [collectIssuesAux, List.mem_singleton] at hi
    subst hi
    refine ⟨(IssueTree.invalidType q e).ownPath ++ (IssueTree.invalidType q e).customPath, ?_⟩
    simp [IssueTree.withPath, IssueTree.pathField, List.append_assoc]
  | invalidLiteral q e =>
    intro p i hi
    simp only [collectIssuesAux, List.mem_singleton] at hi
    subst hi
    refine ⟨(IssueTree.invalidLiteral q e).ownPath ++ (IssueTree.invalidLiteral q e).customPath, ?_⟩
    simp [IssueTree.withPath, IssueTree.pathField, List.append_assoc]
  | missingKey q k =>
    intro p i hi
    simp only [collectIssuesAux, List.mem_singleton] at hi
    subst hi
    refine ⟨(IssueTree.missingKey q k).ownPath ++ (IssueTree.missingKey q k).customPath, ?_⟩
    simp [IssueTree.withPath, IssueTree.pathField, List.append_assoc]
  | unrecognizedKey q k =>
    intro p i hi
    simp only [collectIssuesAux, List.mem_singleton] at hi
    subst hi
    refine ⟨(IssueTree.unrecognizedKey q k).ownPath ++ (IssueTree.unrecognizedKey q k).customPath, ?_⟩
    simp [IssueTree.withPath, IssueTree.pathField, List.append_assoc]
  | invalidUnion q t ih =>
    intro p i hi
    simp only [collectIssuesAux, List.mem_singleton] at hi
    subst hi
    refine ⟨(IssueTree.invalidUnion q t).ownPath ++ (IssueTree.invalidUnion q t).customPath, ?_⟩
    simp [IssueTree.withPath, IssueTree.pathField, List.append_assoc]
  | customError q e =>
    intro p i hi
    simp only [collectIssuesAux, List.mem_singleton] at hi
    subst hi
    refine ⟨(IssueTree.customError q e).ownPath ++ (IssueTree.customError q e).customPath, ?_⟩
    simp [IssueTree.withPath, IssueTree.pathField, List.append_assoc]

theorem objLoop1_strip (knownKeys : String → Bool) (template : List (String × Value))
    (restF : Option VFunc) :
    ∀ (fields : List (String × Value)), (∃ kv ∈ fields, knownKeys kv.1 = false) →
    ∀ acc, objLoop1 knownKeys template restF .strip fields none acc = .inr (some template, acc) := by
  intro fields
  induction fields with
  | nil => intro h; simp at h
  | cons kv rest ih =>
    intro h acc
    by_cases hk : knownKeys kv.1
    · obtain ⟨kv', hkv', hk'⟩ := h
      rcases List.mem_cons.mp hkv' with heq | hmem
      · rw [heq] at hk'; rw [hk'] at hk; simp at hk
      · simp only [objLoop1, hk, if_true]
        exact ih ⟨kv', hmem, hk'⟩ acc
    · simp only [objLoop1]
      rw [Bool.not_eq_true] at hk
      simp [hk]

theorem objLoop1_strict (knownKeys : String → Bool) (template : List (String × Value))
    (restF : Option VFunc) :
    ∀ (pre : List (String × Value)) (kv : String × Value) (post : List (String × Value)),
    (∀ f ∈ pre, knownKeys f.1 = true) → knownKeys kv.1 = false →
    ∀ out acc, objLoop1 knownKeys template restF .strict (pre ++ kv :: post) out acc =
      .inl (.unrecognizedKey none (.str kv.1)) := by
  intro pre
  induction pre with
  | nil =>
    intro kv post _ hkv out acc
    simp [objLoop1, hkv]
  | cons f rest ih =>
    intro kv post hpre hkv out acc
    have hf : knownKeys f.1 = true := hpre f (List.mem_cons_self _ _)
    simp only [List.cons_append, objLoop1, hf, if_true]
    exact ih kv post (fun g hg => hpre g (List.mem_cons_of_mem _ hg)) hkv out acc

end Valita

namespace Valita

theorem never_ok_getD (funcs : List VFunc)
    (h : ∀ f ∈ funcs, ∀ v w, f v FuncMode.pass ≠ Result.ok w)
    (i : Nat) (v w : Value) : (funcs.getD i defaultFunc) v FuncMode.pass ≠ Result.ok w := by
  rw [List.getD_eq_getElem?_getD]
  cases hf : funcs[i]? with
  | none => simp [defaultFunc]
  | some f =>
    simp only [Option.getD_some]
    have hmem : f ∈ funcs := List.get?_mem (by rw [List.get?_eq_getElem?, hf])
    exact h f hmem v w

theorem tryFuncs_inl (funcs : List VFunc) (rootValue : Value) (mode : FuncMode) :
    ∀ (idxs : List Nat) (acc : Option IssueTree) (count : Nat) (r : Result),
    tryFuncs funcs rootValue mode idxs acc count = .inl r →
    ∃ i, (funcs.getD i defaultFunc) rootValue mode = r := by
  intro idxs
  induction idxs with
  | nil => intro acc count r h; simp [tryFuncs] at h
  | cons i idxs ih =>
    intro acc count r h
    cases hf : (funcs.getD i defaultFunc) rootValue mode with
    | issues t =>
      simp only [tryFuncs, hf] at h
      exact ih _ _ _ h
    | unchanged =>
      simp only [tryFuncs, hf, Sum.inl.injEq] at h
      exact ⟨i, by rw [hf, h]⟩
    | ok w =>
      simp only [tryFuncs, hf, Sum.inl.injEq] at h
      exact ⟨i, by rw [hf, h]⟩

theorem umFinalize_issues (d : UMData) (path : Option (List JSKey))
    (st : Option IssueTree × Nat) : ∃ t, umFinalize d path st = .issues t := by
  obtain ⟨acc, count⟩ := st
  cases acc with
  | none => exact ⟨_, rfl⟩
  | some t =>
    by_cases hc : count > 1
    · exact ⟨.invalidUnion none t, by simp [umFinalize, hc]⟩
    · exact ⟨t, by simp [umFinalize, hc]⟩

theorem umRun_never_ok (funcs : List VFunc)
    (h : ∀ f ∈ funcs, ∀ v w, f v FuncMode.pass ≠ Result.ok w)
    (d : UMData) (path : Option (List JSKey)) (rv v w : Value) :
    umRun funcs d path rv v FuncMode.pass ≠ Result.ok w := by
  intro hcontra
  simp only [umRun] at hcontra
  cases hn : v.isNothing with
  | true =>
    rw [hn] at hcontra
    simp only [if_true] at hcontra
    cases htf : tryFuncs funcs rv FuncMode.pass d.nothings none 0 with
    | inl r =>
      rw [htf] at hcontra
      simp only at hcontra
      obtain ⟨i, hi⟩ := tryFuncs_inl funcs rv FuncMode.pass d.nothings none 0 r htf
      rw [hcontra] at hi
      exact never_ok_getD funcs h i rv w hi
    | inr st =>
      rw [htf] at hcontra
      simp only at hcontra
      obtain ⟨t, ht⟩ := umFinalize_issues d path st
      rw [ht] at hcontra
      exact Result.noConfusion hcontra
  | false =>
    rw [hn] at hcontra
    simp only [Bool.false_eq_true, if_false] at hcontra
    by_cases hty : d.unknowns.isEmpty ∧ ¬ d.allTypes.contains v.toBaseType
    · rw [if_pos hty] at hcontra
      exact Result.noConfusion hcontra
    · rw [if_neg hty] at hcontra
      set opts := (match findLitBucket d.literals v with
        | some roots => some roots
        | none => alGet (fun a c => a == c) d.types v.toBaseType) with hopts
      cases hst1 : (match opts with
        | some idxs => tryFuncs funcs rv FuncMode.pass idxs none 0
        | none => Sum.inr ((none : Option IssueTree), 0)) with
      | inl r =>
        rw [hst1] at hcontra
        simp only at hcontra
        have : ∃ idxs, tryFuncs funcs rv FuncMode.pass idxs none 0 = .inl r := by
          cases ho : opts with
          | some idxs => rw [ho] at hst1; exact ⟨idxs, hst1⟩
          | none => rw [ho] at hst1; exact absurd hst1 (by simp)
        obtain ⟨idxs, hidxs⟩ := this
        obtain ⟨i, hi⟩ := tryFuncs_inl funcs rv FuncMode.pass idxs none 0 r hidxs
        rw [hcontra] at hi
        exact never_ok_getD funcs h i rv w hi
      | inr st1 =>
        rw [hst1] at hcontra
        simp only at hcontra
        cases htf2 : tryFuncs funcs rv FuncMode.pass d.unknowns st1.1 st1.2 with
        | inl r =>
          rw [htf2] at hcontra
          simp only at hcontra
          obtain ⟨i, hi⟩ := tryFuncs_inl funcs rv FuncMode.pass d.unknowns st1.1 st1.2 r htf2
          rw [hcontra] at hi
          exact never_ok_getD funcs h i rv w hi
        | inr st2 =>
          rw [htf2] at hcontra
          simp only at hcontra
          obtain ⟨t, ht⟩ := umFinalize_issues d path st2
          rw [ht] at hcontra
          exact Result.noConfusion hcontra

theorem objApplyKey_pass_none (template : List (String × Value)) (key : String)
    (value : Value) (r : Result) (acc : Option IssueTree) (hr : ∀ w, r ≠ .ok w) :
    (objApplyKey .pass template key value r none acc).1 = none := by
  cases r with
  | unchanged => rfl
  | ok w => exact absurd rfl (hr w)
  | issues t => rfl

theorem objLoop1_pass (knownKeys : String → Bool) (template : List (String × Value))
    (rf : VFunc) (hrest : ∀ v w, rf v FuncMode.pass ≠ Result.ok w) :
    ∀ (fields : List (String × Value)) (acc : Option IssueTree),
    ∃ acc', objLoop1 knownKeys template (some rf) .pass fields none acc = .inr (none, acc') := by
  intro fields
  induction fields with
  | nil => intro acc; exact ⟨acc, by simp [objLoop1]⟩
  | cons kv rest ih =>
    intro acc
    by_cases hk : knownKeys kv.1
    · simp only [objLoop1, hk, if_true]
      exact ih acc
    · rw [Bool.not_eq_true] at hk
      simp only [objLoop1, hk, Bool.false_eq_true, if_false]
      rw [if_neg (by simp : ¬ (FuncMode.pass = FuncMode.strict)),
          if_neg (by simp : ¬ (FuncMode.pass = FuncMode.strip))]
      cases hfr : rf kv.2 FuncMode.pass with
      | unchanged => exact ih acc
      | ok w => exact absurd hfr (hrest kv.2 w)
      | issues t => exact ih _

theorem objLoop2_pass_some_of (fields template : List (String × Value)) :
    ∀ (entries : List FieldEntry) (acc : Option IssueTree)
      (st : Option (List (String × Value)) × Option IssueTree),
    objLoop2 fields template .pass entries none acc = .inr st →
    ∀ o', st.1 = some o' →
    ∃ e ∈ entries, ∃ w, e.2.1 (objValueFor fields e.1) FuncMode.pass = Result.ok w := by
  intro entries
  induction entries with
  | nil =>
    intro acc st h o' ho'
    simp only [objLoop2, Sum.inr.injEq] at h
    rw [← h] at ho'
    simp at ho'
  | cons e rest ih =>
    intro acc st h o' ho'
    obtain ⟨key, func, required⟩ := e
    simp only [objLoop2] at h
    cases hl : lookupField fields key with
    | none =>
      simp only [hl] at h
      by_cases hr : required
      · simp [hr] at h
      · simp only [hr, if_false] at h
        have hv : objValueFor fields key = .nothingV := by simp [objValueFor, hl]
        cases hfr : func Value.nothingV FuncMode.pass with
        | unchanged =>
          rw [hfr] at h
          simp only [objApplyKey] at h
          rcases ih _ st h o' ho' with ⟨e, he, hw⟩
          exact ⟨e, List.mem_cons_of_mem _ he, hw⟩
        | ok w =>
          refine ⟨(key, func, required), List.mem_cons_self _ _, w, ?_⟩
          rw [hv]
          exact hfr
        | issues t =>
          rw [hfr] at h
          simp only [objApplyKey] at h
          rcases ih _ st h o' ho' with ⟨e, he, hw⟩
          exact ⟨e, List.mem_cons_of_mem _ he, hw⟩
    | some v =>
      simp only [hl] at h
      have hv : objValueFor fields key = v := by simp [objValueFor, hl]
      cases hfr : func v FuncMode.pass with
      | unchanged =>
        rw [hfr] at h
        simp only [objApplyKey] at h
        rcases ih _ st h o' ho' with ⟨e, he, hw⟩
        exact ⟨e, List.mem_cons_of_mem _ he, hw⟩
      | ok w =>
        refine ⟨(key, func, required), List.mem_cons_self _ _, w, ?_⟩
        rw [hv]
        exact hfr
      | issues t =>
        rw [hfr] at h
        simp only [objApplyKey] at h
        rcases ih _ st h o' ho' with ⟨e, he, hw⟩
        exact ⟨e, List.mem_cons_of_mem _ he, hw⟩

end Valita

namespace Valita

theorem objectGenFunc_never_ok (entries : List FieldEntry) (restF : Option VFunc)
    (hE : ∀ e ∈ entries, ∀ v w, e.2.1 v FuncMode.pass ≠ Result.ok w)
    (hR : ∀ rf, restF = some rf → ∀ v w, rf v FuncMode.pass ≠ Result.ok w) :
    ∀ v w, objectGenFunc entries restF v FuncMode.pass ≠ Result.ok w := by
  intro v w hcontra
  cases v with
  | obj fields =>
    cases hrf : restF with
    | none =>
      subst hrf
      simp only [objectGenFunc] at hcontra
      simp only [if_pos (by simp : FuncMode.pass = FuncMode.pass ∨ (none : Option VFunc).isSome),
        if_neg (by simp : ¬ (FuncMode.pass = FuncMode.strict ∨ FuncMode.pass = FuncMode.strip ∨
          (none : Option VFunc).isSome))] at hcontra
      simp only [eq_self_iff_true, true_or, if_true] at hcontra
      cases hl2 : objLoop2 fields fields .pass entries none none with
      | inl i =>
        rw [hl2] at hcontra
        simp at hcontra
      | inr st =>
        rw [hl2] at hcontra
        obtain ⟨out2, acc2⟩ := st
        cases acc2 with
        | some t => simp at hcontra
        | none =>
          cases out2 with
          | none => simp at hcontra
          | some o =>
            obtain ⟨e, he, w', hw'⟩ :=
              objLoop2_pass_some_of fields fields entries none (some o, none) hl2 o rfl
            exact hE e he (objValueFor fields e.1) w' hw'
    | some rf =>
      subst hrf
      simp only [objectGenFunc] at hcontra
      simp only [if_pos (by simp : FuncMode.pass = FuncMode.pass ∨ (some rf).isSome),
        if_pos (by simp : FuncMode.pass = FuncMode.strict ∨ FuncMode.pass = FuncMode.strip ∨
          (some rf).isSome)] at hcontra
      simp only [eq_self_iff_true, true_or, if_true] at hcontra
      obtain ⟨acc0, hacc0⟩ :=
        objLoop1_pass (fun k => entries.any fun e => e.1 == k) fields rf (hR rf rfl) fields none
      rw [hacc0] at hcontra
      simp only [] at hcontra
      cases hl2 : objLoop2 fields fields .pass entries none acc0 with
      | inl i =>
        rw [hl2] at hcontra
        simp at hcontra
      | inr st =>
        rw [hl2] at hcontra
        obtain ⟨out2, acc2⟩ := st
        cases acc2 with
        | some t => simp at hcontra
        | none =>
          cases out2 with
          | none => simp at hcontra
          | some o =>
            obtain ⟨e, he, w', hw'⟩ :=
              objLoop2_pass_some_of fields fields entries acc0 (some o, none) hl2 o rfl
            exact hE e he (objValueFor fields e.1) w' hw'
  | undef => simp [objectGenFunc] at hcontra
  | null => simp [objectGenFunc] at hcontra
  | bool b => simp [objectGenFunc] at hcontra
  | num n => simp [objectGenFunc] at hcontra
  | big n => simp [objectGenFunc] at hcontra
  | str s => simp [objectGenFunc] at hcontra
  | arr items => simp [objectGenFunc] at hcontra
  | nothingV => simp [objectGenFunc] at hcontra

theorem arrLoop_some_of (f : VFunc) (mode : FuncMode) (arr : List Value) :
    ∀ (l : List Value) (i : Nat) (acc : Option IssueTree) (o : List Value),
    (arrLoop f mode arr l i none acc).1 = some o →
    ∃ v ∈ l, ∃ w, f v mode = Result.ok w := by
  intro l
  induction l with
  | nil => intro i acc o h; simp [arrLoop] at h
  | cons v rest ih =>
    intro i acc o h
    cases hf : f v mode with
    | unchanged =>
      simp only [arrLoop, hf] at h
      obtain ⟨v', hv', hw⟩ := ih _ _ _ h
      exact ⟨v', List.mem_cons_of_mem _ hv', hw⟩
    | ok w => exact ⟨v, List.mem_cons_self _ _, w, hf⟩
    | issues t =>
      simp only [arrLoop, hf] at h
      obtain ⟨v', hv', hw⟩ := ih _ _ _ h
      exact ⟨v', List.mem_cons_of_mem _ hv', hw⟩

theorem arrLoop_all_unchanged (f : VFunc) (mode : FuncMode) (arr : List Value) :
    ∀ (l : List Value) (i : Nat) (out : Option (List Value)) (acc : Option IssueTree),
    (∀ v ∈ l, f v mode = Result.unchanged) → arrLoop f mode arr l i out acc = (out, acc) := by
  intro l
  induction l with
  | nil => intro i out acc _; simp [arrLoop]
  | cons v rest ih =>
    intro i out acc h
    have hv : f v mode = Result.unchanged := h v (List.mem_cons_self _ _)
    simp only [arrLoop, hv]
    exact ih _ _ _ (fun v' hv' => h v' (List.mem_cons_of_mem _ hv'))

theorem arrayGenFunc_never_ok (f : VFunc)
    (hf : ∀ v w, f v FuncMode.pass ≠ Result.ok w) :
    ∀ v w, arrayGenFunc f v FuncMode.pass ≠ Result.ok w := by
  intro v w hcontra
  cases v with
  | arr items =>
    simp only [arrayGenFunc] at hcontra
    cases hst : arrLoop f FuncMode.pass items items 0 none none with
    | mk out accr =>
      rw [hst] at hcontra
      cases accr with
      | some t => simp at hcontra
      | none =>
        cases out with
        | none => simp at hcontra
        | some o =>
          obtain ⟨v', _, w', hw'⟩ :=
            arrLoop_some_of f FuncMode.pass items items 0 none o (by rw [hst])
          exact hf v' w' hw'
  | undef => simp [arrayGenFunc] at hcontra
  | null => simp [arrayGenFunc] at hcontra
  | bool b => simp [arrayGenFunc] at hcontra
  | num n => simp [arrayGenFunc] at hcontra
  | big n => simp [arrayGenFunc] at hcontra
  | str s => simp [arrayGenFunc] at hcontra
  | obj fields => simp [arrayGenFunc] at hcontra
  | nothingV => simp [arrayGenFunc] at hcontra

theorem createObjectMatchers_matcher (funcs : List VFunc) (t : List (Nat × Schema)) :
    ∀ m ∈ createObjectMatchers funcs t, ∃ fl p, m.matcher = createUnionMatcher funcs fl p := by
  intro m hm
  simp only [createObjectMatchers, List.mem_map] at hm
  obtain ⟨key, hkey, hmk⟩ := hm
  exact ⟨_, _, by rw [← hmk]⟩

theorem unionGenFunc_never_ok (opts : List Schema) (funcs : List VFunc)
    (hF : ∀ f ∈ funcs, ∀ v w, f v FuncMode.pass ≠ Result.ok w) :
    ∀ v w, unionGenFunc opts funcs v FuncMode.pass ≠ Result.ok w := by
  intro v w hcontra
  simp only [unionGenFunc] at hcontra
  cases hobj : createObjectMatchers funcs (flattenWithIdx opts) with
  | nil =>
    rw [hobj] at hcontra
    simp only [createUnionMatcher] at hcontra
    cases v <;>
      exact umRun_never_ok funcs hF _ none _ _ w hcontra
  | cons item restm =>
    rw [hobj] at hcontra
    cases v with
    | obj fields =>
      simp only at hcontra
      cases hlk : lookupField fields item.key with
      | some value =>
        rw [hlk] at hcontra
        simp only at hcontra
        have hitem : item ∈ createObjectMatchers funcs (flattenWithIdx opts) := by
          rw [hobj]; exact List.mem_cons_self _ _
        obtain ⟨fl, p, hmat⟩ := createObjectMatchers_matcher funcs _ item hitem
        rw [hmat] at hcontra
        simp only [createUnionMatcher] at hcontra
        exact umRun_never_ok funcs hF _ p (.obj fields) value w hcontra
      | none =>
        rw [hlk] at hcontra
        simp only at hcontra
        cases hn : item.nothing with
        | some i =>
          rw [hn] at hcontra
          simp only at hcontra
          exact never_ok_getD funcs hF i .nothingV w hcontra
        | none =>
          rw [hn] at hcontra
          simp at hcontra
    | undef =>
      simp only [createUnionMatcher] at hcontra
      exact umRun_never_ok funcs hF _ none _ _ w hcontra
    | null =>
      simp only [createUnionMatcher] at hcontra
      exact umRun_never_ok funcs hF _ none _ _ w hcontra
    | bool b =>
      simp only [createUnionMatcher] at hcontra
      exact umRun_never_ok funcs hF _ none _ _ w hcontra
    | num n =>
      simp only [createUnionMatcher] at hcontra
      exact umRun_never_ok funcs hF _ none _ _ w hcontra
    | big n =>
      simp only [createUnionMatcher] at hcontra
      exact umRun_never_ok funcs hF _ none _ _ w hcontra
    | str s =>
      simp only [createUnionMatcher] at hcontra
      exact umRun_never_ok funcs hF _ none _ _ w hcontra
    | arr items =>
      simp only [createUnionMatcher] at hcontra
      exact umRun_never_ok funcs hF _ none _ _ w hcontra
    | nothingV =>
      simp only [createUnionMatcher] at hcontra
      exact umRun_never_ok funcs hF _ none _ _ w hcontra

end Valita

namespace Valita

mutual

theorem never_ok : ∀ (s : Schema), s.transformFree = true →
    ∀ (v w : Value), s.run v FuncMode.pass ≠ Result.ok w
  | .nothing, _, v, w => by cases v <;> simp [Schema.run]
  | .unknown, _, v, w => by simp [Schema.run]
  | .string, _, v, w => by cases v <;> simp [Schema.run]
  | .number, _, v, w => by cases v <;> simp [Schema.run]
  | .bigint, _, v, w => by cases v <;> simp [Schema.run]
  | .boolean, _, v, w => by cases v <;> simp [Schema.run]
  | .undef, _, v, w => by cases v <;> simp [Schema.run]
  | .null, _, v, w => by cases v <;> simp [Schema.run]
  | .literal lv, _, v, w => by
    simp only [Schema.run]
    split <;> simp
  | .object shape restT, h, v, w => by
    have h' : fieldsTransformFree shape = true ∧ restTransformFree restT = true := by
      simpa [Schema.transformFree, Bool.and_eq_true] using h
    exact objectGenFunc_never_ok (runFields shape) (runRest restT)
      (never_ok_fields shape h'.1) (never_ok_rest restT h'.2) v w
  | .array item, h, v, w => by
    have h' : item.transformFree = true := by simpa [Schema.transformFree] using h
    exact arrayGenFunc_never_ok item.run (never_ok item h') v w
  | .union opts, h, v, w => by
    have h' : listTransformFree opts = true := by simpa [Schema.transformFree] using h
    exact unionGenFunc_never_ok opts (runList opts) (never_ok_list opts h') v w
  | .optional t, h, v, w => by
    have h' : t.transformFree = true := by simpa [Schema.transformFree] using h
    cases v <;> simp [Schema.run] <;> exact never_ok t h' _ w
  | .transform t f, h, v, w => by simp [Schema.transformFree] at h

theorem never_ok_fields : ∀ (l : List (String × Schema)), fieldsTransformFree l = true →
    ∀ e ∈ runFields l, ∀ (v w : Value), e.2.1 v FuncMode.pass ≠ Result.ok w
  | [], _, e, he => by simp [runFields] at he
  | (k, s) :: rest, h, e, he => by
    have h' : s.transformFree = true ∧ fieldsTransformFree rest = true := by
      simpa [fieldsTransformFree, Bool.and_eq_true] using h
    simp only [runFields] at he
    rcases List.mem_cons.mp he with heq | hmem
    · intro v w
      rw [heq]
      exact never_ok s h'.1 v w
    · exact never_ok_fields rest h'.2 e hmem

theorem never_ok_rest : ∀ (o : Option Schema), restTransformFree o = true →
    ∀ rf, runRest o = some rf → ∀ (v w : Value), rf v FuncMode.pass ≠ Result.ok w
  | none, _, rf, hrf => by simp [runRest] at hrf
  | some s, h, rf, hrf => by
    have h' : s.transformFree = true := by simpa [restTransformFree] using h
    have hrfs : rf = s.run := by
      simp only [runRest, Option.some.injEq] at hrf
      exact hrf.symm
    rw [hrfs]
    exact never_ok s h'

theorem never_ok_list : ∀ (l : List Schema), listTransformFree l = true →
    ∀ f ∈ runList l, ∀ (v w : Value), f v FuncMode.pass ≠ Result.ok w
  | [], _, f, hf => by simp [runList] at hf
  | s :: rest, h, f, hf => by
    have h' : s.transformFree = true ∧ listTransformFree rest = true := by
      simpa [listTransformFree, Bool.and_eq_true] using h
    simp only [runList] at hf
    rcases List.mem_cons.mp hf with heq | hmem
    · intro v w
      rw [heq]
      exact never_ok s h'.1 v w
    · exact never_ok_list rest h'.2 f hmem

end

end Valita

namespace Valita

theorem isOptional_optional (t : Schema) : (Schema.optional t).isOptional = true := rfl

theorem accJoin_isSome (l : List (JSKey × IssueTree)) :
    ∀ a, ∃ t, accJoin (some a) l = some t := by
  induction l with
  | nil => intro a; exact ⟨a, rfl⟩
  | cons kt rest ih =>
    intro a
    rw [accJoin_cons]
    exact ih _

theorem hreq_entries (shape : List (String × Schema)) (fields : List (String × Value))
    (hreq : ∀ ks ∈ shape, ks.2.isOptional = false → (lookupField fields ks.1).isSome = true) :
    ∀ e ∈ runFields shape, e.2.2 = true → (lookupField fields e.1).isSome = true := by
  intro e he hr
  obtain ⟨ks, hks, heq⟩ := runFields_mem_inv shape e he
  subst heq
  simp only [Bool.not_eq_true'] at hr
  exact hreq ks hks hr

theorem objectRun_pass_norest (shape : List (String × Schema)) (fields : List (String × Value))
    (hreq : ∀ e ∈ runFields shape, e.2.2 = true → (lookupField fields e.1).isSome = true)
    (T : IssueTree)
    (hT : accJoin none (entryFailures fields .pass (runFields shape)) = some T) :
    Schema.run (.object shape none) (.obj fields) FuncMode.pass = Result.issues T := by
  obtain ⟨out', hout⟩ := objLoop2_char fields fields .pass (runFields shape) hreq none none
  show objectGenFunc (runFields shape) (runRest none) (.obj fields) FuncMode.pass = Result.issues T
  simp only [runRest]
  simp only [objectGenFunc]
  simp only [if_pos (by simp : FuncMode.pass = FuncMode.pass ∨ (none : Option VFunc).isSome),
    if_neg (by simp : ¬ (FuncMode.pass = FuncMode.strict ∨ FuncMode.pass = FuncMode.strip ∨
      (none : Option VFunc).isSome))] at hout ⊢
  simp only [eq_self_iff_true, true_or, if_true]
  rw [hout, hT]

/-- A successful passthrough parse of a transform-free schema returned the
unchanged sentinel, hence the input value itself, and re-parsing it agrees. -/
theorem transform_free_parse_identity (s : Schema) (v w : Value)
    (hfree : s.transformFree = true) (h : s.parse v FuncMode.pass = .ok w) :
    w = v ∧ s.parse w FuncMode.pass = .ok w := by
  have hrun : s.run v FuncMode.pass = Result.unchanged := by
    cases hr : s.run v FuncMode.pass with
    | unchanged => rfl
    | ok w' => exact absurd hr (never_ok s hfree v w')
    | issues t =>
      simp only [Schema.parse, hr] at h
      exact absurd h (by simp)
  simp only [Schema.parse, hrun] at h
  simp only [Except.ok.injEq] at h
  subst h
  exact ⟨rfl, by simp only [Schema.parse, hrun]⟩

/-- C6 (amended): for transform-free schemas in the default passthrough mode,
a successful parse returns the input value itself, so re-parsing the result
succeeds and returns an equal value (parse is idempotent). -/
theorem C6_transform_free_parse_idempotent (s : Schema) (v w : Value)
    (hfree : s.transformFree = true) (h : s.parse v FuncMode.pass = .ok w) :
    w = v ∧ s.parse w FuncMode.pass = .ok w :=
  transform_free_parse_identity s v w hfree h

/-- C6 witness: a transform-free schema at a concrete input. -/
theorem C6_transform_free_parse_idempotent_witness :
    Value.num (JSNum.int 1) = Value.num (JSNum.int 1) ∧
      Schema.parse .number (Value.num (JSNum.int 1)) FuncMode.pass
        = .ok (Value.num (JSNum.int 1)) :=
  C6_transform_free_parse_idempotent .number (Value.num (JSNum.int 1))
    (Value.num (JSNum.int 1)) rfl rfl

/-- C6 counterexample: with a pure (side-effect-free) user transform, parse is
not idempotent: `number().apply(() => "x")` maps 1 to "x", but re-parsing "x"
throws `invalid_type`, refuting the claim for schemas without side-effecting
transforms. -/
theorem C6_counterexample :
    Schema.parse (.transform .number (fun _ => .ok (.str "x"))) (.num (.int 1)) FuncMode.pass
        = .ok (.str "x")
    ∧ Schema.parse (.transform .number (fun _ => .ok (.str "x"))) (.str "x") FuncMode.pass
        = .error (.invalidType none [.number]) :=
  ⟨rfl, rfl⟩

/-- C4: an array (resp. object, in passthrough mode with no rest) validation
returns the unchanged sentinel whenever every element function reports unchanged;
it returns a clone only when some element / field function produced a new value;
and for a transform-free object schema with no rest, in passthrough mode, parse
returns the identical input value on success. -/
theorem C4_unchanged_sentinel_no_copy :
    (∀ (f : VFunc) (items : List Value) (mode : FuncMode),
        (∀ v ∈ items, f v mode = Result.unchanged) →
        arrayGenFunc f (.arr items) mode = Result.unchanged)
    ∧ (∀ (f : VFunc) (items : List Value) (mode : FuncMode) (w : Value),
        arrayGenFunc f (.arr items) mode = Result.ok w →
        ∃ v ∈ items, ∃ u, f v mode = Result.ok u)
    ∧ (∀ (entries : List FieldEntry) (fields : List (String × Value)) (w : Value),
        objectGenFunc entries none (.obj fields) FuncMode.pass = Result.ok w →
        ∃ e ∈ entries, ∃ u, e.2.1 (objValueFor fields e.1) FuncMode.pass = Result.ok u)
    ∧ (∀ (shape : List (String × Schema)) (v w : Value),
        fieldsTransformFree shape = true →
        Schema.parse (.object shape none) v FuncMode.pass = .ok w → w = v) := by
  refine ⟨?_, ?_, ?_, ?_⟩
  · intro f items mode h
    simp only [arrayGenFunc]
    rw [arrLoop_all_unchanged f mode items items 0 none none h]
  · intro f items mode w h
    simp only [arrayGenFunc] at h
    cases hst : arrLoop f mode items items 0 none none with
    | mk out accr =>
      rw [hst] at h
      cases accr with
      | some t => simp at h
      | none =>
        cases out with
        | none => simp at h
        | some o => exact arrLoop_some_of f mode items items 0 none o (by rw [hst])
  · intro entries fields w h
    simp only [objectGenFunc] at h
    simp only [if_pos (by simp : FuncMode.pass = FuncMode.pass ∨ (none : Option VFunc).isSome),
      if_neg (by simp : ¬ (FuncMode.pass = FuncMode.strict ∨ FuncMode.pass = FuncMode.strip ∨
        (none : Option VFunc).isSome))] at h
    simp only [eq_self_iff_true, true_or, if_true] at h
    cases hl2 : objLoop2 fields fields .pass entries none none with
    | inl i => rw [hl2] at h; simp at h
    | inr st =>
      rw [hl2] at h
      obtain ⟨out2, acc2⟩ := st
      cases acc2 with
      | some t => simp at h
      | none =>
        cases out2 with
        | none => simp at h
        | some o => exact objLoop2_pass_some_of fields fields entries none (some o, none) hl2 o rfl
  · intro shape v w h1 h
    have hfree : (Schema.object shape none).transformFree = true := by
      simp [Schema.transformFree, restTransformFree, h1]
    exact (transform_free_parse_identity _ v w hfree h).1

/-- C4 witness: a concrete already-valid input under each applicable part. -/
theorem C4_unchanged_sentinel_no_copy_witness :
    arrayGenFunc Schema.number.run (Value.arr [Value.num (JSNum.int 1)]) FuncMode.pass
      = Result.unchanged
    ∧ Value.obj [("a", Value.num (JSNum.int 1))] = Value.obj [("a", Value.num (JSNum.int 1))] := by
  constructor
  · refine C4_unchanged_sentinel_no_copy.1 Schema.number.run [Value.num (JSNum.int 1)]
      FuncMode.pass ?_
    intro v hv
    rw [List.mem_singleton] at hv
    subst hv
    rfl
  · exact C4_unchanged_sentinel_no_copy.2.2.2 [("a", Schema.number)]
      (Value.obj [("a", Value.num (JSNum.int 1))]) (Value.obj [("a", Value.num (JSNum.int 1))])
      rfl rfl

/-- C7: the nested path example: the single collected issue's path is the object
key, then the array index, then the nested key, in that order. -/
theorem C7_nested_path_order :
    Schema.parse (.object [("a", .array (.object [("b", .number)] none))] none)
        (.obj [("a", .arr [.obj [("b", .str "x")]])]) FuncMode.pass
      = .error (.prepend (.str "a") (.prepend (.num 0) (.prepend (.str "b")
          (.invalidType none [.number]))))
    ∧ collectIssues (.prepend (.str "a") (.prepend (.num 0) (.prepend (.str "b")
          (.invalidType none [.number]))))
      = [.invalidType (some [.str "a", .num 0, .str "b"]) [.number]] :=
  ⟨rfl, rfl⟩

/-- C10: literal matching is strict identity equality: parse succeeds returning
the input unchanged exactly when the input is `===`-equal to the literal;
`literal(NaN)` rejects every input (NaN is not `===`-equal to itself) and
`literal(0)` accepts `-0` (returned unchanged). -/
theorem C10_literal_strict_identity :
    (∀ (lv : LitValue) (w : Value) (mode : FuncMode),
        Schema.parse (.literal lv) w mode = .ok w ↔ strictEqValueLit w lv = true)
    ∧ (∀ (w : Value) (mode : FuncMode),
        Schema.parse (.literal (.num .nan)) w mode
          = .error (.invalidLiteral none [.num .nan]))
    ∧ Schema.parse (.literal (.num (.int 0))) (.num .negZero) FuncMode.pass
        = .ok (.num .negZero) := by
  refine ⟨?_, ?_, rfl⟩
  · intro lv w mode
    constructor
    · intro h
      by_contra hne
      rw [Bool.not_eq_true] at hne
      simp [Schema.parse, Schema.run, hne] at h
    · intro h
      simp [Schema.parse, Schema.run, h]
  · intro w mode
    have hno : strictEqValueLit w (.num .nan) = false := by
      cases w with
      | num n => cases n <;> rfl
      | undef => rfl
      | null => rfl
      | bool b => rfl
      | big n => rfl
      | str s => rfl
      | arr items => rfl
      | obj fields => rfl
      | nothingV => rfl
    simp [Schema.parse, Schema.run, hno]

end Valita

namespace Valita

theorem objectRun_pass_norest_not_issues (shape : List (String × Schema))
    (fields : List (String × Value))
    (hreq : ∀ e ∈ runFields shape, e.2.2 = true → (lookupField fields e.1).isSome = true)
    (hnil : entryFailures fields .pass (runFields shape) = []) :
    ∀ T, Schema.run (.object shape none) (.obj fields) FuncMode.pass ≠ Result.issues T := by
  obtain ⟨out', hout⟩ := objLoop2_char fields fields .pass (runFields shape) hreq none none
  rw [hnil] at hout
  intro T hT
  have : objectGenFunc (runFields shape) (runRest none) (.obj fields) FuncMode.pass
      = Result.issues T := hT
  simp only [runRest] at this
  simp only [objectGenFunc] at this
  simp only [if_pos (by simp : FuncMode.pass = FuncMode.pass ∨ (none : Option VFunc).isSome),
    if_neg (by simp : ¬ (FuncMode.pass = FuncMode.strict ∨ FuncMode.pass = FuncMode.strip ∨
      (none : Option VFunc).isSome))] at this
  simp only [eq_self_iff_true, true_or, if_true] at this
  rw [hout] at this
  simp only [accJoin, List.foldl_nil] at this
  cases out' <;> simp at this

/-- C1 (amended): in passthrough mode with no rest schema, provided every
required declared key is present, the object validator joins an issue subtree for
each failing declared key, so the flattened result contains every failing key's
issues; a missing required key instead aborts immediately with only that single
missing_key issue (refuting the claim as stated). -/
theorem C1_all_present_failing_keys_reported
    (shape : List (String × Schema)) (fields : List (String × Value))
    (hreq : ∀ ks ∈ shape, ks.2.isOptional = false → (lookupField fields ks.1).isSome = true)
    (ks : String × Schema) (hks : ks ∈ shape) (t : IssueTree)
    (hfail : ks.2.run (objValueFor fields ks.1) FuncMode.pass = Result.issues t) :
    ∃ T, Schema.run (.object shape none) (.obj fields) FuncMode.pass = Result.issues T ∧
      ∀ i ∈ collectIssuesAux t [.str ks.1], i ∈ collectIssues T := by
  have hreq' := hreq_entries shape fields hreq
  have hmem : (JSKey.str ks.1, t) ∈ entryFailures fields .pass (runFields shape) := by
    apply List.mem_filterMap.mpr
    refine ⟨(ks.1, ks.2.run, !ks.2.isOptional), mem_runFields shape ks hks, ?_⟩
    simp only [hfail]
  have hT : ∃ T, accJoin none (entryFailures fields .pass (runFields shape)) = some T := by
    cases hfl : entryFailures fields .pass (runFields shape) with
    | nil => rw [hfl] at hmem; simp at hmem
    | cons kt rest => rw [accJoin_cons]; exact accJoin_isSome rest _
  obtain ⟨T, hTeq⟩ := hT
  refine ⟨T, objectRun_pass_norest shape fields hreq' T hTeq, ?_⟩
  intro i hi
  have hco := optCollect_accJoin (entryFailures fields .pass (runFields shape)) none []
  rw [hTeq] at hco
  show i ∈ collectIssuesAux T []
  have : optCollect (some T) [] = collectIssuesAux T [] := rfl
  rw [← this, hco]
  simp only [optCollect, List.append_nil]
  apply List.mem_flatten.mpr
  refine ⟨collectIssuesAux t ([] ++ [JSKey.str ks.1]), ?_, ?_⟩
  · exact List.mem_map.mpr ⟨(JSKey.str ks.1, t), List.mem_reverse.mpr hmem, rfl⟩
  · simpa using hi

/-- C1 witness: two declared keys, both present and failing. -/
theorem C1_all_present_failing_keys_reported_witness :
    ∃ T, Schema.run (.object [("a", Schema.number), ("b", Schema.number)] none)
        (.obj [("a", .str "x"), ("b", .str "y")]) FuncMode.pass = Result.issues T ∧
      ∀ i ∈ collectIssuesAux (.invalidType none [.number]) [.str "a"], i ∈ collectIssues T :=
  C1_all_present_failing_keys_reported [("a", Schema.number), ("b", Schema.number)]
    [("a", .str "x"), ("b", .str "y")] (by decide)
    ("a", Schema.number) (by simp) (.invalidType none [.number]) rfl

/-- C1 counterexample: with both declared (required) keys simultaneously absent,
the result is the single missing_key issue for the first key only — not a join
with an issue for each failing key. -/
theorem C1_counterexample_missing_key_aborts :
    Schema.run (.object [("a", Schema.number), ("b", Schema.number)] none) (.obj [])
        FuncMode.pass = .issues (.missingKey none (.str "a"))
    ∧ (collectIssues (.missingKey none (.str "a"))).length = 1 :=
  ⟨rfl, rfl⟩

/-- C2 (amended): flattening is depth-first, but sibling failures within an
object appear in reverse validation order (the per-key groups come in reverse
declaration order, so for keys a then b both failing, b's issues precede a's);
the error message is derived from the first issue of the flattened list. -/
theorem C2_flatten_reverse_sibling_order
    (shape : List (String × Schema)) (fields : List (String × Value))
    (hreq : ∀ ks ∈ shape, ks.2.isOptional = false → (lookupField fields ks.1).isSome = true)
    (T : IssueTree)
    (hrun : Schema.run (.object shape none) (.obj fields) FuncMode.pass = Result.issues T) :
    collectIssues T = ((entryFailures fields .pass (runFields shape)).reverse.map
        (fun kt => collectIssuesAux kt.2 [kt.1])).flatten
    ∧ ∀ i r2, collectIssues T = i :: r2 → errorMessage T = issueFullMessage i := by
  have hreq' := hreq_entries shape fields hreq
  cases hfl : entryFailures fields .pass (runFields shape) with
  | nil => exact absurd hrun (objectRun_pass_norest_not_issues shape fields hreq' hfl T)
  | cons kt rest =>
    have hT : ∃ T', accJoin none (kt :: rest) = some T' := by
      rw [accJoin_cons]; exact accJoin_isSome rest _
    obtain ⟨T', hT'⟩ := hT
    have hT2 : accJoin none (entryFailures fields .pass (runFields shape)) = some T' := by
      rw [hfl]; exact hT'
    have hrun' := objectRun_pass_norest shape fields hreq' T' hT2
    rw [hrun] at hrun'
    have hTT : T = T' := by
      have := hrun'.symm
      simp only [Result.issues.injEq] at this
      exact this.symm
    subst hTT
    constructor
    · have hco := optCollect_accJoin (entryFailures fields .pass (runFields shape)) none []
      rw [hT2] at hco
      have h1 : optCollect (some T) [] = collectIssuesAux T [] := rfl
      rw [h1] at hco
      show collectIssuesAux T [] = _
      rw [hco]
      simp only [optCollect, List.append_nil, List.nil_append]
      rw [hfl]
    · intro i r2 hi
      simp only [errorMessage, hi]

/-- C2 witness: two failing keys, a declared before b. -/
theorem C2_flatten_reverse_sibling_order_witness :
    collectIssues (.join (.prepend (.str "b") (.invalidType none [.number]))
                         (.prepend (.str "a") (.invalidType none [.number])))
      = ((entryFailures [("a", Value.str "x"), ("b", Value.str "y")] .pass
            (runFields [("a", Schema.number), ("b", Schema.number)])).reverse.map
          (fun kt => collectIssuesAux kt.2 [kt.1])).flatten
    ∧ ∀ i r2, collectIssues (.join (.prepend (.str "b") (.invalidType none [.number]))
                         (.prepend (.str "a") (.invalidType none [.number]))) = i :: r2 →
        errorMessage (.join (.prepend (.str "b") (.invalidType none [.number]))
                         (.prepend (.str "a") (.invalidType none [.number]))) = issueFullMessage i :=
  C2_flatten_reverse_sibling_order [("a", Schema.number), ("b", Schema.number)]
    [("a", .str "x"), ("b", .str "y")] (by decide) _ rfl

/-- C2 counterexample: key a is declared and validated before key b, both fail,
yet b's issue precedes a's in the flattened list — the claimed
validation-encounter order is refuted. -/
theorem C2_counterexample_order_reversed :
    Schema.run (.object [("a", Schema.number), ("b", Schema.number)] none)
        (.obj [("a", .str "x"), ("b", .str "y")]) FuncMode.pass
      = .issues (.join (.prepend (.str "b") (.invalidType none [.number]))
                       (.prepend (.str "a") (.invalidType none [.number])))
    ∧ collectIssues (.join (.prepend (.str "b") (.invalidType none [.number]))
                       (.prepend (.str "a") (.invalidType none [.number])))
      = [.invalidType (some [.str "b"]) [.number], .invalidType (some [.str "a"]) [.number]] :=
  ⟨rfl, rfl⟩

end Valita

namespace Valita

/-- C3 (evaluating the code at the failing input): in the all-object union with
valid discriminant key "k", whose first alternative tolerates the key's absence,
an input wholly lacking "k" that conforms to that alternative is rejected with
`invalid_type` expecting "object": the dispatcher calls the tolerant alternative's
function on the `Nothing` sentinel instead of on the input object. The second
conjunct shows that same alternative accepts the input directly. -/
theorem C3_union_absent_key_validates_sentinel :
    Schema.run
        (.union [.object [("k", .optional (.literal (.str "a"))), ("x", .number)] none,
                 .object [("k", .literal (.str "b"))] none])
        (.obj [("x", .num (.int 1))]) FuncMode.pass
      = .issues (.invalidType none [.object])
    ∧ Schema.run (.object [("k", .optional (.literal (.str "a"))), ("x", .number)] none)
        (.obj [("x", .num (.int 1))]) FuncMode.pass
      = .unchanged :=
  ⟨rfl, rfl⟩

theorem knownKeys_true (shape : List (String × Schema)) (x : String)
    (h : ∃ ks ∈ shape, ks.1 = x) :
    ((runFields shape).any (fun e => e.1 == x)) = true := by
  obtain ⟨ks, hks, heq⟩ := h
  apply List.any_eq_true.mpr
  exact ⟨(ks.1, ks.2.run, !ks.2.isOptional), mem_runFields shape ks hks, by simp [heq]⟩

theorem knownKeys_false (shape : List (String × Schema)) (x : String)
    (h : ∀ ks ∈ shape, ks.1 ≠ x) :
    ((runFields shape).any (fun e => e.1 == x)) = false := by
  apply List.any_eq_false.mpr
  intro e he
  obtain ⟨ks, hks, heq⟩ := runFields_mem_inv shape e he
  subst heq
  simp only [beq_iff_eq]
  exact h ks hks

/-- C9: strict mode takes precedence over a rest schema: with any rest schema
present, a strict-mode parse of an input whose fields contain a first undeclared
key fails immediately with unrecognized_key for that key; the result is the same
for every rest schema, so the rest validation function is never invoked. -/
theorem C9_strict_mode_beats_rest
    (shape : List (String × Schema)) (restS : Schema)
    (pre : List (String × Value)) (kv : String × Value) (post : List (String × Value))
    (hpre : ∀ f ∈ pre, ∃ ks ∈ shape, ks.1 = f.1)
    (hkv : ∀ ks ∈ shape, ks.1 ≠ kv.1) :
    Schema.run (.object shape (some restS)) (.obj (pre ++ kv :: post)) FuncMode.strict
      = Result.issues (.unrecognizedKey none (.str kv.1)) := by
  show objectGenFunc (runFields shape) (runRest (some restS)) _ _ = _
  simp only [runRest]
  simp only [objectGenFunc]
  simp only [if_pos (by simp : FuncMode.strict = FuncMode.pass ∨ (some restS.run).isSome),
    if_pos (by simp : FuncMode.strict = FuncMode.strict ∨ FuncMode.strict = FuncMode.strip ∨
      (some restS.run).isSome)]
  rw [objLoop1_strict (fun k => (runFields shape).any (fun e => e.1 == k))
      (pre ++ kv :: post) (some restS.run) pre kv post
      (fun f hf => knownKeys_true shape f.1 (hpre f hf))
      (knownKeys_false shape kv.1 hkv) none none]
  simp only [true_or, if_true]

/-- C9 witness: a declared key "a", an undeclared key "z", rest schema string. -/
theorem C9_strict_mode_beats_rest_witness :
    Schema.run (.object [("a", Schema.number)] (some .string))
        (.obj ([("a", Value.num (JSNum.int 1))] ++ ("z", Value.str "q") :: []))
        FuncMode.strict = Result.issues (.unrecognizedKey none (.str "z")) :=
  C9_strict_mode_beats_rest [("a", Schema.number)] .string
    [("a", Value.num (JSNum.int 1))] ("z", Value.str "q") [] (by decide) (by decide)

end Valita

namespace Valita

/-- C8: in strip mode with no rest schema, when the input has an undeclared key
(forcing the declared-keys-template clone) and a declared optional key is wholly
absent, a successful parse returns an object binding that key to the internal
`Nothing` sentinel — neither omitted nor bound to undefined. -/
theorem C8_strip_binds_nothing_sentinel
    (pre post : List (String × Schema)) (inner : Schema) (k : String)
    (fields : List (String × Value)) (w : Value)
    (habsent : lookupField fields k = none)
    (hundecl : ∃ kv ∈ fields, ∀ ks ∈ pre ++ (k, Schema.optional inner) :: post, ks.1 ≠ kv.1)
    (hpost : ∀ ks ∈ post, ks.1 ≠ k)
    (hrun : Schema.run (.object (pre ++ (k, .optional inner) :: post) none) (.obj fields)
        FuncMode.strip = Result.ok w) :
    ∃ o, w = Value.obj o ∧ lookupField o k = some Value.nothingV := by
  have hrun' : objectGenFunc (runFields (pre ++ (k, Schema.optional inner) :: post))
      (runRest none) (.obj fields) FuncMode.strip = Result.ok w := hrun
  simp only [runRest] at hrun'
  simp only [objectGenFunc] at hrun'
  simp only [if_neg (by simp : ¬ (FuncMode.strip = FuncMode.pass ∨ (none : Option VFunc).isSome)),
    if_pos (by simp : FuncMode.strip = FuncMode.strict ∨ FuncMode.strip = FuncMode.strip ∨
      (none : Option VFunc).isSome)] at hrun'
  have hkk : ∃ kv ∈ fields,
      ((fun key => (runFields (pre ++ (k, Schema.optional inner) :: post)).any
          (fun e => e.1 == key)) kv.1) = false := by
    obtain ⟨kv, hkv, hk⟩ := hundecl
    exact ⟨kv, hkv, knownKeys_false _ kv.1 hk⟩
  rw [objLoop1_strip (fun key => (runFields (pre ++ (k, Schema.optional inner) :: post)).any
        (fun e => e.1 == key))
      ((runFields (pre ++ (k, Schema.optional inner) :: post)).map (fun e => (e.1, Value.undef)))
      none fields hkk none] at hrun'
  simp only [true_or, or_true, if_true] at hrun'
  try simp only [] at hrun'
  have hentries : runFields (pre ++ (k, Schema.optional inner) :: post) =
      runFields pre ++ ((k, (Schema.optional inner).run, false) :: runFields post) := by
    rw [runFields_append]
    simp [runFields, Schema.isOptional, Schema.toTerminals, Schema.isNothing]
  rw [show (runFields (pre ++ (k, Schema.optional inner) :: post)) =
      runFields pre ++ ((k, (Schema.optional inner).run, false) :: runFields post)
      from hentries] at hrun'
  rw [objLoop2_append] at hrun'
  cases hp1 : objLoop2 fields
      ((runFields pre ++ ((k, (Schema.optional inner).run, false) :: runFields post)).map
        (fun e => (e.1, Value.undef)))
      FuncMode.strip (runFields pre)
      (some ((runFields pre ++ ((k, (Schema.optional inner).run, false) :: runFields post)).map
        (fun e => (e.1, Value.undef)))) none with
  | inl e =>
    rw [hp1] at hrun'
    simp at hrun'
  | inr st1 =>
    rw [hp1] at hrun'
    try simp only [] at hrun'
    obtain ⟨o1, ho1⟩ := objLoop2_some fields _ FuncMode.strip (runFields pre) _ none st1 hp1
    simp only [objLoop2, habsent] at hrun'
    simp only [Bool.false_eq_true, if_false] at hrun'
    have hopt : (Schema.optional inner).run Value.nothingV FuncMode.strip = Result.unchanged := rfl
    rw [hopt] at hrun'
    rw [ho1] at hrun'
    have happ : objApplyKey FuncMode.strip
        ((runFields pre ++ ((k, (Schema.optional inner).run, false) :: runFields post)).map
          (fun e => (e.1, Value.undef)))
        k Value.nothingV Result.unchanged (some o1) st1.2
        = (some (setField o1 k Value.nothingV), st1.2) := rfl
    rw [happ] at hrun'
    try simp only [] at hrun'
    cases hp2 : objLoop2 fields
        ((runFields pre ++ ((k, (Schema.optional inner).run, false) :: runFields post)).map
          (fun e => (e.1, Value.undef)))
        FuncMode.strip (runFields post) (some (setField o1 k Value.nothingV)) st1.2 with
    | inl e =>
      rw [hp2] at hrun'
      simp at hrun'
    | inr st2 =>
      rw [hp2] at hrun'
      obtain ⟨out2, acc2⟩ := st2
      cases acc2 with
      | some t => simp at hrun'
      | none =>
        cases out2 with
        | none => simp at hrun'
        | some o =>
          simp only [Result.ok.injEq] at hrun'
          refine ⟨o, hrun'.symm, ?_⟩
          have hkeys : ∀ e ∈ runFields post, e.1 ≠ k := by
            intro e he
            obtain ⟨ks, hks, heq⟩ := runFields_mem_inv post e he
            subst heq
            exact hpost ks hks
          have hpres := objLoop2_preserve fields
            ((runFields pre ++ ((k, (Schema.optional inner).run, false) :: runFields post)).map
              (fun e => (e.1, Value.undef)))
            FuncMode.strip k (runFields post) hkeys (setField o1 k Value.nothingV) st1.2
            (some o, none) hp2 o rfl
          rw [hpres, lookupField_setField_self]

/-- C8 witness: strip mode, input with undeclared key "a", optional declared
key "b" absent. -/
theorem C8_strip_binds_nothing_sentinel_witness :
    ∃ o, Value.obj [("k", Value.num (JSNum.int 1)), ("b", Value.nothingV)] = Value.obj o ∧
      lookupField o "b" = some Value.nothingV :=
  C8_strip_binds_nothing_sentinel [("k", Schema.number)] [] Schema.number "b"
    [("k", Value.num (JSNum.int 1)), ("a", Value.num (JSNum.int 5))]
    (Value.obj [("k", Value.num (JSNum.int 1)), ("b", Value.nothingV)])
    rfl (by decide) (by simp) rfl

end Valita

namespace Valita

theorem svzEqLit_refl (lv : LitValue) : svzEqLit lv lv = true := by
  cases lv with
  | num n => cases n <;> simp [svzEqLit, JSNum.svzEq]
  | str s => simp [svzEqLit]
  | big n => simp [svzEqLit]
  | bool b => simp [svzEqLit]

theorem svz_not_nothing (v : Value) (lv : LitValue) (h : svzEqValueLit v lv = true) :
    v.isNothing = false := by
  cases v <;> first
    | rfl
    | (cases lv <;> simp [svzEqValueLit] at h)

theorem svz_toBaseType (v : Value) (lv : LitValue) (h : svzEqValueLit v lv = true) :
    v.toBaseType = lv.toBaseType := by
  cases v <;> cases lv <;>
    simp_all [svzEqValueLit, Value.toBaseType, LitValue.toBaseType]

/-- C5: bucket trial semantics of `createUnionMatcher`: for a bucket holding the
two alternatives (in declaration order) of a duplicated literal discriminant, the
first alternative's success is returned immediately and the result does not
depend on the second alternative at all (it is untried); if both fail the result
is a single invalid_union wrapping the joined sub-trees; and a single-alternative
bucket surfaces its issue tree directly, unwrapped. -/
theorem C5_bucket_trial_semantics (lv : LitValue) (f g : VFunc) (v : Value) (mode : FuncMode)
    (hsvz : svzEqValueLit v lv = true) :
    (f v mode = Result.unchanged →
        createUnionMatcher [f, g] [(0, .literal lv), (1, .literal lv)] none v v mode
          = Result.unchanged)
    ∧ (∀ u, f v mode = Result.ok u →
        createUnionMatcher [f, g] [(0, .literal lv), (1, .literal lv)] none v v mode
          = Result.ok u)
    ∧ (∀ t1 t2, f v mode = Result.issues t1 → g v mode = Result.issues t2 →
        createUnionMatcher [f, g] [(0, .literal lv), (1, .literal lv)] none v v mode
          = Result.issues (.invalidUnion none (.join t2 t1)))
    ∧ (∀ t1, f v mode = Result.issues t1 →
        createUnionMatcher [f] [(0, .literal lv)] none v v mode = Result.issues t1) := by
  have hnn := svz_not_nothing v lv hsvz
  have hb := svz_toBaseType v lv hsvz
  have hd2 : umNormalize (umCollect [(0, Schema.literal lv), (1, Schema.literal lv)]
      (UMData.mk [] [] [] [] [])) = UMData.mk [(lv, [0, 1])] [] [lv.toBaseType] [] [] := by
    simp [umCollect, Schema.termClass, alPush, alGet, alSet, svzEqLit_refl, addUniqueBT,
      umNormalize, mergeLiterals, dedup, dedupAux, difference]
  have hd1 : umNormalize (umCollect [(0, Schema.literal lv)]
      (UMData.mk [] [] [] [] [])) = UMData.mk [(lv, [0])] [] [lv.toBaseType] [] [] := by
    simp [umCollect, Schema.termClass, alPush, alGet, alSet, svzEqLit_refl, addUniqueBT,
      umNormalize, mergeLiterals, dedup, dedupAux, difference]
  have hty2 : ¬ (([] : List Nat).isEmpty = true ∧
      ¬ ([lv.toBaseType].contains v.toBaseType) = true) := by
    simp [hb]
  refine ⟨?_, ?_, ?_, ?_⟩
  · intro hf
    simp only [createUnionMatcher, hd2, umRun, hnn, Bool.false_eq_true, if_false]
    rw [if_neg hty2]
    simp only [findLitBucket, hsvz, if_true]
    simp only [tryFuncs, List.getD, List.get?, Option.getD_some, hf]
  · intro u hf
    simp only [createUnionMatcher, hd2, umRun, hnn, Bool.false_eq_true, if_false]
    rw [if_neg hty2]
    simp only [findLitBucket, hsvz, if_true]
    simp only [tryFuncs, List.getD, List.get?, Option.getD_some, hf]
  · intro t1 t2 hf hg
    simp only [createUnionMatcher, hd2, umRun, hnn, Bool.false_eq_true, if_false]
    rw [if_neg hty2]
    simp only [findLitBucket, hsvz, if_true]
    simp only [tryFuncs, List.getD, List.get?, Option.getD_some, hf, hg]
    simp [umFinalize, joinIssues, hf, hg]
  · intro t1 hf
    simp only [createUnionMatcher, hd1, umRun, hnn, Bool.false_eq_true, if_false]
    rw [if_neg hty2]
    simp only [findLitBucket, hsvz, if_true]
    simp only [tryFuncs, List.getD, List.get?, Option.getD_some, hf]
    simp [umFinalize, joinIssues, hf]

/-- C5 witness: a duplicated literal discriminant, both alternatives failing. -/
theorem C5_bucket_trial_semantics_witness :
    createUnionMatcher
        [fun _ _ => Result.issues (.missingKey none (.str "p")),
         fun _ _ => Result.issues (.missingKey none (.str "q"))]
        [(0, .literal (.str "a")), (1, .literal (.str "a"))] none
        (.str "a") (.str "a") FuncMode.pass
      = Result.issues (.invalidUnion none
          (.join (.missingKey none (.str "q")) (.missingKey none (.str "p")))) :=
  (C5_bucket_trial_semantics (.str "a")
      (fun _ _ => Result.issues (.missingKey none (.str "p")))
      (fun _ _ => Result.issues (.missingKey none (.str "q")))
      (.str "a") FuncMode.pass rfl).2.2.1
    (.missingKey none (.str "p")) (.missingKey none (.str "q")) rfl rfl

end Valita
